import Mathlib

/-!
Shallow embedding of the core of `izdrail/chief.izdrail.com`:
the tool executor (`internal/tools/tools.go`), the agent driver
(`internal/agent`), the loop engine (`internal/loop`), and the SQLite
story store (`internal/db/store.go`), together with theorems settling the
frozen claims about the natural-language specification.

Strings are modelled as Lean `String`s; the Go standard-library string
primitives used by the repository (`strings.Index`, `strings.Contains`,
`strings.Replace` with count 1, `strings.TrimSpace`) are given explicit
executable definitions below that follow their documented semantics.
Filesystem contents are an association list from absolute path to content;
OS / subprocess behaviour (shell, `grep`, directory walking, `filepath`
pattern matching) is passed in as oracle fields of a `World`, since that
code is outside the repository.
-/

namespace Chief

/-! ### Go string primitives -/

/-- First index at which `sub` occurs in `s` (`strings.Index` on char
lists; the empty pattern occurs at index 0). -/
def goIndexL : List Char → List Char → Option Nat
  | s, sub =>
    if sub.isPrefixOf s then some 0
    else
      match s with
      | [] => none
      | _ :: t => (goIndexL t sub).map (· + 1)

/-- `strings.Index` on Lean strings. -/
def goIndex (s sub : String) : Option Nat := goIndexL s.data sub.data

/-- `strings.Contains`. -/
def goContains (s sub : String) : Bool := (goIndex s sub).isSome

/-- `strings.Replace(s, old, new, 1)`: replace the first occurrence of
`old` by `new`; identity when `old` does not occur. -/
def goReplace1 (s old new : String) : String :=
  match goIndex s old with
  | none => s
  | some i => ⟨s.data.take i ++ new.data ++ s.data.drop (i + old.data.length)⟩

/-- `strings.TrimSpace`. -/
def goTrimSpace (s : String) : String :=
  ⟨(s.data.dropWhile Char.isWhitespace).reverse.dropWhile Char.isWhitespace |>.reverse⟩

/-- `strings.HasPrefix`. -/
def goStartsWith (s sub : String) : Bool := sub.data.isPrefixOf s.data

/-- `strings.TrimSuffix`. -/
def goTrimSuffix (s suf : String) : String :=
  if suf.data.isSuffixOf s.data then ⟨s.data.take (s.data.length - suf.data.length)⟩ else s

/-- `strings.TrimPrefix`. -/
def goTrimBeg (s pre : String) : String :=
  if goStartsWith s pre then ⟨s.data.drop pre.data.length⟩ else s

/-! ### Tool executor (`internal/tools/tools.go`)

Each `executeX` takes the already-unmarshalled argument struct as an
`Option` (`none` models a `json.Unmarshal` failure on the raw argument
JSON).  `RawArgs` models a `json.RawMessage` by recording, for each
tool's argument struct, the result of unmarshalling into it.  The
filesystem is an association list `path ↦ content`; `os.MkdirAll` and
`os.WriteFile` are modelled as always succeeding (the claims do not
involve disk-write failures).  Subprocesses (`bash`, `grep`), directory
walking, `filepath.Glob`, `filepath.Match` and `filepath.Rel` are oracle
fields of `World`, as they are OS / standard-library behaviour outside
the repository.  OS error texts (e.g. for a missing file) are fixed
representative strings; only the fact that they are returned as tool
output with a nil fatal error matters to the claims. -/

structure ReadArgs where
  file_path : String
  start_line : Int := 0
  end_line : Int := 0
deriving DecidableEq, Repr

structure WriteArgs where
  file_path : String
  content : String
deriving DecidableEq, Repr

structure EditArgs where
  file_path : String
  old_string : String
  new_string : String
deriving DecidableEq, Repr

structure BashArgs where
  command : String
deriving DecidableEq, Repr

structure GlobArgs where
  pattern : String
deriving DecidableEq, Repr

structure GrepArgs where
  pattern : String
  path : String := ""
deriving DecidableEq, Repr

structure ListArgs where
  path : String := ""
deriving DecidableEq, Repr

/-- Model of a `json.RawMessage`: what each tool's unmarshal yields. -/
structure RawArgs where
  asRead : Option ReadArgs := none
  asWrite : Option WriteArgs := none
  asEdit : Option EditArgs := none
  asBash : Option BashArgs := none
  asGlob : Option GlobArgs := none
  asGrep : Option GrepArgs := none
  asList : Option ListArgs := none
deriving DecidableEq, Repr

/-- Outcome of a shell command (`exec.Cmd.Run` with captured buffers). -/
structure BashOut where
  stdout : String := ""
  stderr : String := ""
  exitErr : Option String := none
deriving DecidableEq, Repr

/-- Filesystem plus OS oracles for the tool executor. -/
structure World where
  files : List (String × String)
  bash : String → BashOut := fun _ => {}
  globStd : String → Except String (List String) := fun _ => .ok []
  walkFiles : String → Except String (List String) := fun _ => .ok []
  fileMatch : String → String → Bool := fun _ _ => false
  relPath : String → String → Option String := fun _ p => some p
  grepOut : String → String → String := fun _ _ => ""
  readDir : String → Except String (List (String × Option Nat)) := fun _ => .ok []

def lookupFile (files : List (String × String)) (p : String) : Option String :=
  (files.find? (fun e => e.1 = p)).map (·.2)

def writeFileTo (files : List (String × String)) (p c : String) : List (String × String) :=
  if (files.find? (fun e => e.1 = p)).isSome then
    files.map (fun e => if e.1 = p then (p, c) else e)
  else files ++ [(p, c)]

/-- `resolvePath` from tools.go; `filepath.Join` is modelled as plain
concatenation with a separator (path cleaning is immaterial here). -/
def resolvePath (path workDir : String) : String :=
  if goStartsWith path "/" then path else workDir ++ "/" ++ path

/-- Result of `tools.Execute`: either a tool output string (with the
possibly-updated filesystem) and a nil error, or a non-nil fatal error. -/
inductive ExecOut where
  | ok (out : String) (files : List (String × String))
  | fatal (msg : String)
deriving DecidableEq, Repr

def ExecOut.isFatal : ExecOut → Bool
  | .ok _ _ => false
  | .fatal _ => true

/-- The filesystem after an execution (`d` when the call was fatal and
left the filesystem untouched). -/
def ExecOut.outFiles (d : List (String × String)) : ExecOut → List (String × String)
  | .ok _ fs => fs
  | .fatal _ => d

/-- `executeRead`.  When both a line slice and Go's `lines[start:end]`
are requested with `end < start`, Go would panic; the model returns the
empty slice instead (no claim exercises that input). -/
def executeRead (args : Option ReadArgs) (workDir : String) (w : World) : ExecOut :=
  match args with
  | none => .fatal "parse Read args"
  | some a =>
    let path := resolvePath a.file_path workDir
    match lookupFile w.files path with
    | none => .ok ("Error reading file: open " ++ path ++ ": no such file or directory") w.files
    | some data =>
      let content := data
      if a.start_line > 0 ∨ a.end_line > 0 then
        let lines := content.splitOn "\n"
        let start : Int := if a.start_line - 1 < 0 then 0 else a.start_line - 1
        let stop : Int :=
          if a.end_line ≤ 0 ∨ a.end_line > (lines.length : Int) then (lines.length : Int)
          else a.end_line
        if start ≥ (lines.length : Int) then
          .ok "Error: start_line is beyond end of file" w.files
        else
          let content := String.intercalate "\n" ((lines.take stop.toNat).drop start.toNat)
          if content.length > 12000 then
            .ok (content.take 12000 ++
              "\n\n... (file truncated at 12000 bytes, use start_line/end_line to read more)") w.files
          else .ok content w.files
      else
        if content.length > 12000 then
          .ok (content.take 12000 ++
            "\n\n... (file truncated at 12000 bytes, use start_line/end_line to read more)") w.files
        else .ok content w.files

def executeWrite (args : Option WriteArgs) (workDir : String) (w : World) : ExecOut :=
  match args with
  | none => .fatal "parse Write args"
  | some a =>
    let path := resolvePath a.file_path workDir
    .ok ("File written successfully: " ++ a.file_path) (writeFileTo w.files path a.content)

def executeEdit (args : Option EditArgs) (workDir : String) (w : World) : ExecOut :=
  match args with
  | none => .fatal "parse Edit args"
  | some a =>
    let path := resolvePath a.file_path workDir
    match lookupFile w.files path with
    | none =>
      .ok ("Error reading file for edit: open " ++ path ++ ": no such file or directory") w.files
    | some content =>
      if ¬ goContains content a.old_string then
        .ok ("Error: old_string not found in " ++ a.file_path) w.files
      else
        let newContent := goReplace1 content a.old_string a.new_string
        .ok ("File edited successfully: " ++ a.file_path) (writeFileTo w.files path newContent)

def executeBash (args : Option BashArgs) (workDir : String) (w : World) : ExecOut :=
  match args with
  | none => .fatal "parse Bash args"
  | some a =>
    let r := w.bash a.command
    let output := r.stdout
    let output := if r.stderr.length > 0 then output ++ "\n[stderr]\n" ++ r.stderr else output
    let output :=
      match r.exitErr with
      | some e => output ++ "\n[exit error: " ++ e ++ "]"
      | none => output
    let output :=
      if output.length > 8192 then output.take 8192 ++ "\n... (output truncated)" else output
    .ok output w.files

/-- `filepath.Base`, restricted to the non-empty slash-separated names the
walk produces. -/
def goBase (p : String) : String := ((p.splitOn "/").getLast?).getD "."

def globRecursive (pattern workDir : String) (w : World) : ExecOut :=
  let i := (goIndex pattern "**").getD 0
  let part0 : String := ⟨pattern.data.take i⟩
  let part1 : String := ⟨pattern.data.drop (i + 2)⟩
  let baseDir :=
    if part0 ≠ "" ∧ part0 ≠ "/" then workDir ++ "/" ++ goTrimSuffix part0 "/" else workDir
  let suffix := goTrimBeg part1 "/"
  match w.walkFiles baseDir with
  | .error e => .ok ("Error walking directory: " ++ e) w.files
  | .ok paths =>
    let found :=
      if suffix = "" then paths
      else
        (paths.filter (fun p => w.fileMatch suffix (goBase p))).map
          (fun p => (w.relPath workDir p).getD "")
    if found = [] then .ok "No files found matching pattern." w.files
    else
      let found :=
        if found.length > 200 then found.take 200 ++ ["... (results capped at 200)"] else found
      .ok (String.intercalate "\n" found) w.files

def executeGlob (args : Option GlobArgs) (workDir : String) (w : World) : ExecOut :=
  match args with
  | none => .fatal "parse Glob args"
  | some a =>
    if goContains a.pattern "**" then globRecursive a.pattern workDir w
    else
      let absPattern :=
        if goStartsWith a.pattern "/" then a.pattern else workDir ++ "/" ++ a.pattern
      match w.globStd absPattern with
      | .error e => .ok ("Error: " ++ e) w.files
      | .ok ms =>
        if ms = [] then .ok "No files found matching pattern." w.files
        else
          let result := ms.map (fun m => (w.relPath workDir m).getD m)
          .ok (String.intercalate "\n" result) w.files

def goTrimRightNL (s : String) : String :=
  ⟨(s.data.reverse.dropWhile (· = '\n')).reverse⟩

def executeGrep (args : Option GrepArgs) (workDir : String) (w : World) : ExecOut :=
  match args with
  | none => .fatal "parse Grep args"
  | some a =>
    let searchPath := if a.path ≠ "" then resolvePath a.path workDir else workDir
    let output := w.grepOut a.pattern searchPath
    if output = "" then .ok "No matches found." w.files
    else
      let lines := (goTrimRightNL output).splitOn "\n"
      let rel := lines.map (fun line =>
        match goIndex line ":" with
        | some ci =>
          if ci > 0 then
            let absPath : String := ⟨line.data.take ci⟩
            let rest : String := ⟨line.data.drop ci⟩
            match w.relPath workDir absPath with
            | some r => r ++ rest
            | none => line
          else line
        | none => line)
      let output := String.intercalate "\n" rel
      let output :=
        if output.length > 4096 then output.take 4096 ++ "\n... (output truncated)" else output
      .ok output w.files

def executeList (args : Option ListArgs) (workDir : String) (w : World) : ExecOut :=
  match args with
  | none => .fatal "parse List args"
  | some a =>
    let dirPath := if a.path ≠ "" ∧ a.path ≠ "." then resolvePath a.path workDir else workDir
    match w.readDir dirPath with
    | .error e => .ok ("Error listing directory: " ++ e) w.files
    | .ok entries =>
      if entries = [] then .ok "(empty directory)" w.files
      else
        let lines := entries.map (fun ent =>
          match ent.2 with
          | none => ent.1 ++ "/"
          | some sz => ent.1 ++ " (" ++ toString sz ++ " bytes)")
        let relp := (w.relPath workDir dirPath).getD ""
        .ok ("Contents of " ++ relp ++ "/:" ++ "\n" ++ String.intercalate "\n" lines) w.files

/-- `tools.Execute`: dispatch by tool name. -/
def Execute (name : String) (args : RawArgs) (workDir : String) (w : World) : ExecOut :=
  match name with
  | "Read" => executeRead args.asRead workDir w
  | "Write" => executeWrite args.asWrite workDir w
  | "Edit" => executeEdit args.asEdit workDir w
  | "Bash" => executeBash args.asBash workDir w
  | "Glob" => executeGlob args.asGlob workDir w
  | "Grep" => executeGrep args.asGrep workDir w
  | "List" => executeList args.asList workDir w
  | _ => .fatal ("unknown tool: " ++ name)

def recognizedTools : List String := ["Read", "Write", "Edit", "Bash", "Glob", "Grep", "List"]

/-- Whether the raw argument JSON fails to unmarshal into the argument
struct of the named tool. -/
def parseFails (name : String) (args : RawArgs) : Bool :=
  match name with
  | "Read" => args.asRead.isNone
  | "Write" => args.asWrite.isNone
  | "Edit" => args.asEdit.isNone
  | "Bash" => args.asBash.isNone
  | "Glob" => args.asGlob.isNone
  | "Grep" => args.asGrep.isNone
  | "List" => args.asList.isNone
  | _ => false

/-! ### Agent events, loop events and the iteration stream
(`internal/agent` and the loop package, `Loop.runIteration`) -/

structure ToolCall where
  id : String
  name : String
  args : RawArgs
deriving DecidableEq, Repr

/-- `ollama.Message` as used by the driver (role-tagged chat message). -/
structure Message where
  role : String := ""
  content : String := ""
  toolCalls : List ToolCall := []
  toolCallId : String := ""
  name : String := ""
deriving DecidableEq, Repr

/-- `agent.AgentEvent` (a struct whose zero-valued fields mean "absent"). -/
structure AgentEvent where
  textDelta : String := ""
  toolName : String := ""
  toolInput : RawArgs := {}
  toolResult : String := ""
  error : Option String := none
  done : Bool := false
deriving DecidableEq, Repr

/-- `loop.EventType`. -/
inductive LEventType where
  | unknown | iterationStart | assistantText | toolStart | toolResult
  | storyStarted | storyCompleted | complete | maxIterationsReached | error | retrying
deriving DecidableEq, Repr

/-- `loop.Event`. -/
structure LEvent where
  type : LEventType := .unknown
  iteration : Nat := 0
  text : String := ""
  tool : String := ""
  toolInput : RawArgs := {}
  storyId : String := ""
  err : Option String := none
  retryCount : Nat := 0
  retryMax : Nat := 0
deriving DecidableEq, Repr

/-- `extractStoryID` from the loop package. -/
def extractStoryID (text startTag endTag : String) : String :=
  match goIndex text startTag with
  | none => ""
  | some si =>
    let s := si + startTag.data.length
    let rest : String := ⟨text.data.drop s⟩
    match goIndex rest endTag with
    | none => ""
    | some ei => goTrimSpace ⟨(text.data.drop s).take ei⟩

/-- The stream-consuming loop of `Loop.runIteration`: one agent event at
a time, checking the error field, then the text delta (with the
`<chief-complete/>` marker and the `<ralph-status>` story tag), then the
tool-start and tool-result fields.  `stopped` is the value of the loop's
stopped flag at the error check and `ictxCancelled` the per-iteration
context state there; log-file writes are I/O and not modelled.  Returns
the loop events sent to the channel and the iteration's returned error
(`none` = nil). -/
def processAgentEvents (iter : Nat) (stopped ictxCancelled : Bool) :
    List AgentEvent → List LEvent × Option String
  | [] => ([], none)
  | ev :: rest =>
    match ev.error with
    | some e =>
      if stopped || ictxCancelled then ([], none) else ([], some e)
    | none =>
      if ev.textDelta ≠ "" ∧ goContains ev.textDelta "<chief-complete/>" = true then
        ([{ type := .complete, iteration := iter, text := ev.textDelta }], none)
      else
        let evs1 : List LEvent :=
          if ev.textDelta ≠ "" then
            let sid := extractStoryID ev.textDelta "<ralph-status>" "</ralph-status>"
            if sid ≠ "" then
              [{ type := .storyStarted, iteration := iter, text := ev.textDelta,
                 storyId := sid }]
            else
              [{ type := .assistantText, iteration := iter, text := ev.textDelta }]
          else []
        let evs2 : List LEvent :=
          if ev.toolName ≠ "" then
            [{ type := .toolStart, iteration := iter, tool := ev.toolName,
               toolInput := ev.toolInput }]
          else []
        let evs3 : List LEvent :=
          if ev.toolResult ≠ "" then
            [{ type := .toolResult, iteration := iter, text := ev.toolResult }]
          else []
        let r := processAgentEvents iter stopped ictxCancelled rest
        (evs1 ++ evs2 ++ evs3 ++ r.1, r.2)

/-! ### Agent driver (`agent.RunAgent`) -/

/-- One tool call inside the driver: Execute, folding a fatal error into
the result string (`"Tool error: ..."`). -/
def runToolCall (wd : String) (w : World) (tc : ToolCall) : String × World :=
  match Execute tc.name tc.args wd w with
  | .ok out fs => (out, { w with files := fs })
  | .fatal msg => ("Tool error: " ++ msg, w)

/-- The id keying the tool message: `tc.ID`, or the tool name when the
id is empty. -/
def toolKeyOf (tc : ToolCall) : String := if tc.id = "" then tc.name else tc.id

/-- The `tool`-role history message appended after a call executes. -/
def toolMsg (tc : ToolCall) (result : String) : Message :=
  { role := "tool", content := result, toolCallId := toolKeyOf tc, name := tc.name }

/-- The driver's emitted events, as tagged values. -/
inductive DrvEvent where
  | textDelta (s : String)
  | toolStart (name : String) (input : RawArgs)
  | toolResult (s : String)
  | errorEv (e : String)
  | done
deriving DecidableEq, Repr

/-- The per-round tool-call batch of `RunAgent`: for each call in order,
emit ToolStart, execute, emit ToolResult, append the keyed tool message,
then move to the next call. -/
def execBatch (wd : String) : World → List Message → List ToolCall →
    List DrvEvent × List Message × World
  | w, msgs, [] => ([], msgs, w)
  | w, msgs, tc :: rest =>
    let r := runToolCall wd w tc
    let msgs' := msgs ++ [toolMsg tc r.1]
    let t := execBatch wd r.2 msgs' rest
    (.toolStart tc.name tc.args :: .toolResult r.1 :: t.1, t.2)

/-- Specification-style description of strictly sequential batch
execution: the result of each call is computed in the world left by the
previous calls, in the order received. -/
def seqToolResults (wd : String) : World → List ToolCall → List String
  | _, [] => []
  | w, tc :: rest =>
    (runToolCall wd w tc).1 :: seqToolResults wd (runToolCall wd w tc).2 rest

/-- Accumulated outcome of one streaming chat turn: the text deltas in
stream order, the tool-call batches accumulated across chunks, and the
first stream error if any. -/
structure ChatTurn where
  deltas : List String := []
  toolCalls : List ToolCall := []
  err : Option String := none

/-- The assistant history message appended after a chat turn. -/
def assistantMsg (t : ChatTurn) : Message :=
  { role := "assistant", content := String.join t.deltas, toolCalls := t.toolCalls }

/-- `agent.RunAgent`'s round loop.  `chat` is the LLM transport oracle
(what `client.ChatStream` yields on the given history); `total` is the
effective round budget and `fuel` the remaining rounds.  The caller's
context is not cancelled within this model (cancellation is settled at
the loop layer). -/
def runAgentLoop (wd : String) (chat : List Message → ChatTurn) (total : Nat) :
    Nat → List Message → World → List DrvEvent × List Message × World
  | 0, msgs, w =>
    ([.errorEv ("max tool rounds (" ++ toString total ++ ") exceeded")], msgs, w)
  | fuel + 1, msgs, w =>
    let t := chat msgs
    let textEvs := t.deltas.map DrvEvent.textDelta
    match t.err with
    | some e => (textEvs ++ [.errorEv ("stream error: " ++ e)], msgs, w)
    | none =>
      let msgs' := msgs ++ [assistantMsg t]
      if t.toolCalls = [] then (textEvs ++ [.done], msgs', w)
      else
        let b := execBatch wd w msgs' t.toolCalls
        let r := runAgentLoop wd chat total fuel b.2.1 b.2.2
        (textEvs ++ b.1 ++ r.1, r.2)

/-- `agent.RunAgent`: a zero `MaxToolRounds` defaults to 50 rounds. -/
def RunAgent (wd : String) (chat : List Message → ChatTurn) (maxToolRounds : Nat)
    (msgs : List Message) (w : World) : List DrvEvent × List Message × World :=
  let total := if maxToolRounds = 0 then 50 else maxToolRounds
  runAgentLoop wd chat total total msgs w

/-! ### Retry (`Loop.runIterationWithRetry`) and stop mechanics -/

structure RetryConfig where
  maxRetries : Nat
  retryDelays : List Nat
  enabled : Bool
deriving DecidableEq, Repr

/-- `loop.DefaultRetryConfig` (delays in seconds). -/
def DefaultRetryConfig : RetryConfig :=
  { maxRetries := 3, retryDelays := [0, 5, 15], enabled := true }

/-- External behaviour visible to one `runIterationWithRetry` call:
per-attempt iteration outcomes and the concurrent stop / context state
at each of the function's check points (indexed by attempt number). -/
structure RetryWorld where
  iterResult : Nat → Option String
  stoppedBefore : Nat → Bool := fun _ => false
  stoppedAfter : Nat → Bool := fun _ => false
  ctxDoneInWait : Nat → Bool := fun _ => false
  ctxErrInWait : Nat → String := fun _ => "context canceled"
  ctxErrAfter : Nat → Option String := fun _ => none

/-- Ghost trace entries recording what the retry loop did. -/
inductive RetryStep where
  | waitFull (attempt delay : Nat)
  | waitAborted (attempt : Nat)
  | attemptRun (attempt : Nat) (result : Option String)
  | stoppedReturn (attempt : Nat)
deriving DecidableEq, Repr

def retryingText (attempt maxR : Nat) : String :=
  "Ollama error, retrying (" ++ toString attempt ++ "/" ++ toString maxR ++ ")..."

/-- `fmt.Errorf("max retries (%d) exceeded: %w", MaxRetries, lastErr)`. -/
def maxRetriesMsg (maxR : Nat) (lastErr : Option String) : String :=
  "max retries (" ++ toString maxR ++ ") exceeded: " ++ lastErr.getD "<nil>"

/-- The clamped delay index of the Go code (`delayIdx := attempt-1`,
clamped to the last index). -/
def delayFor (cfg : RetryConfig) (attempt : Nat) : Nat :=
  cfg.retryDelays.getD (min (attempt - 1) (cfg.retryDelays.length - 1)) 0

/-- The Retrying event emitted before retry attempt `k`. -/
def retryEvent (iter : Nat) (cfg : RetryConfig) (k : Nat) : LEvent :=
  { type := .retrying, iteration := iter, retryCount := k,
    retryMax := cfg.maxRetries, text := retryingText k cfg.maxRetries }

/-- The body shared by every attempt of `runIterationWithRetry`:
stopped check, `runIteration` (its result given by the world), the
no-retry checks on failure (context cancelled / stopped), and the
continuation to the next attempt carrying the last error.  Returns the
Retrying events sent, a ghost trace, and the Go return value. -/
def retryBody (w : RetryWorld) (attempt : Nat)
    (cont : String → List LEvent × List RetryStep × Option String) :
    List LEvent × List RetryStep × Option String :=
  if w.stoppedBefore attempt then ([], [.stoppedReturn attempt], none)
  else
    match w.iterResult attempt with
    | none => ([], [.attemptRun attempt none], none)
    | some e =>
      match w.ctxErrAfter attempt with
      | some ce => ([], [.attemptRun attempt (some e)], some ce)
      | none =>
        if w.stoppedAfter attempt then
          ([], [.attemptRun attempt (some e), .stoppedReturn attempt], none)
        else
          let r := cont e
          (r.1, .attemptRun attempt (some e) :: r.2.1, r.2.2)

/-- The attempt loop of `runIterationWithRetry` (attempts
`0..cfg.maxRetries`; `fuel` is the number of remaining loop iterations,
so zero fuel means the loop has run out and returns the wrapped last
error).  For a retry attempt (`attempt > 0`) the pre-phase checks
`cfg.enabled`, emits the Retrying event, and waits out the back-off
delay — aborted only when the context is cancelled during the wait. -/
def retryGo (cfg : RetryConfig) (w : RetryWorld) (iter : Nat) :
    Nat → Nat → Option String → List LEvent × List RetryStep × Option String
  | 0, _, lastErr => ([], [], some (maxRetriesMsg cfg.maxRetries lastErr))
  | fuel + 1, attempt, lastErr =>
    if attempt > 0 then
      if ¬ cfg.enabled then ([], [], lastErr)
      else
        let delay := delayFor cfg attempt
        if delay > 0 ∧ w.ctxDoneInWait attempt then
          ([retryEvent iter cfg attempt], [.waitAborted attempt],
           some (w.ctxErrInWait attempt))
        else
          let ws := if delay > 0 then [RetryStep.waitFull attempt delay] else []
          let b := retryBody w attempt
            (fun e => retryGo cfg w iter fuel (attempt + 1) (some e))
          (retryEvent iter cfg attempt :: b.1, ws ++ b.2.1, b.2.2)
    else
      retryBody w attempt (fun e => retryGo cfg w iter fuel (attempt + 1) (some e))

/-- `Loop.runIterationWithRetry`. -/
def runIterationWithRetry (cfg : RetryConfig) (w : RetryWorld) (iter : Nat) :
    List LEvent × List RetryStep × Option String :=
  retryGo cfg w iter (cfg.maxRetries + 1) 0 none

/-- The `Loop` fields relevant to `Stop`: the stopped flag, whether a
per-iteration cancel handle is registered (`cancelFunc != nil`, which
holds only while `runIteration` is in flight), and whether the
per-iteration context has been cancelled. -/
structure LoopFlags where
  stopped : Bool := false
  cancelRegistered : Bool := false
  iterCtxCancelled : Bool := false
deriving DecidableEq, Repr

/-- `Loop.Stop`: sets the stopped flag and cancels the per-iteration
context only when a cancel handle is registered. -/
def LoopStop (s : LoopFlags) : LoopFlags :=
  { s with stopped := true,
           iterCtxCancelled := s.iterCtxCancelled || s.cancelRegistered }

/-- `Loop.IsStopped`. -/
def IsStopped (s : LoopFlags) : Bool := s.stopped

/-- Retry attempt numbers carried by the Retrying events of a trace. -/
def retryCounts (evs : List LEvent) : List Nat :=
  evs.filterMap (fun e => if e.type = LEventType.retrying then some e.retryCount else none)

/-- Attempt numbers actually run in a ghost trace. -/
def attemptsOf (steps : List RetryStep) : List Nat :=
  steps.filterMap (fun s =>
    match s with
    | .attemptRun a _ => some a
    | _ => none)

/-! ### The iteration loop (`Loop.Run`) -/

/-- External behaviour visible to `Loop.Run`: the outcome and forwarded
events of `runIterationWithRetry` per iteration, the store-sync /
auto-push events (they have no control-flow effect), the PRD reload
(story `passes` flags, or a load error), the post-sync context check and
the concurrent stopped / paused flag values at the loop's checkpoints. -/
structure RunWorld where
  retryOutcome : Nat → Option String := fun _ => none
  retryEvents : Nat → List LEvent := fun _ => []
  syncEvents : Nat → List LEvent := fun _ => []
  ctxDoneAfter : Nat → Bool := fun _ => false
  loadAfter : Nat → Except String (List Bool) := fun _ => .ok []
  stoppedAt : Nat → Bool := fun _ => false
  pausedAt : Nat → Bool := fun _ => false
  pausedAfter : Nat → Bool := fun _ => false

/-- The `for` loop of `Loop.Run` (after the log file is opened).
`iteration` is the loop's iteration counter before entry; the result is
the emitted events, the ghost list of iteration numbers whose body ran,
and the function's return value. -/
def loopRun (w : RunWorld) (maxIter : Nat) :
    Nat → Nat → List LEvent × List Nat × Option String
  | 0, _ => ([], [], none)
  | fuel + 1, iteration =>
    let currentIter := iteration + 1
    if w.stoppedAt currentIter then ([], [], none)
    else if w.pausedAt currentIter then ([], [], none)
    else if currentIter > maxIter then
      ([{ type := .maxIterationsReached, iteration := currentIter - 1 }], [], none)
    else
      let startEv : LEvent := { type := .iterationStart, iteration := currentIter }
      match w.retryOutcome currentIter with
      | some e =>
        (startEv :: w.retryEvents currentIter ++ [{ type := .error, err := some e }],
         [currentIter], some e)
      | none =>
        let evs0 := startEv :: w.retryEvents currentIter ++ w.syncEvents currentIter
        if w.ctxDoneAfter currentIter then (evs0, [currentIter], some "context canceled")
        else
          match w.loadAfter currentIter with
          | .error e =>
            (evs0 ++ [{ type := .error, err := some ("failed to load PRD: " ++ e) }],
             [currentIter], some ("failed to load PRD: " ++ e))
          | .ok passes =>
            if passes.all (· = true) then
              (evs0 ++ [{ type := .complete, iteration := currentIter }],
               [currentIter], none)
            else if w.pausedAfter currentIter then (evs0, [currentIter], none)
            else
              let r := loopRun w maxIter fuel currentIter
              (evs0 ++ r.1, currentIter :: r.2.1, r.2.2)

/-! ### Story store (`internal/db/store.go`) -/

/-- `db.StoryDB` (acceptance criteria as the stored JSON text). -/
structure StoryDB where
  id : String
  title : String := ""
  description : String := ""
  acceptanceCriteria : String := ""
  priority : Int := 0
  passes : Bool := false
  inProgress : Bool := false
deriving DecidableEq, Repr

/-- A row of the `user_stories` table (`id TEXT PRIMARY KEY`). -/
structure StoryRow where
  id : String
  projectId : Int
  title : String
  description : String
  acceptanceCriteria : String
  priority : Int
  passes : Bool
  inProgress : Bool
deriving DecidableEq, Repr

/-- The `DO UPDATE SET` branch: every field from the excluded row except
`id` and `project_id`. -/
def updRow (st : StoryDB) (r : StoryRow) : StoryRow :=
  { r with title := st.title, description := st.description,
           acceptanceCriteria := st.acceptanceCriteria,
           priority := st.priority, passes := st.passes,
           inProgress := st.inProgress }

/-- The freshly inserted row. -/
def newRow (projectID : Int) (st : StoryDB) : StoryRow :=
  { id := st.id, projectId := projectID, title := st.title,
    description := st.description, acceptanceCriteria := st.acceptanceCriteria,
    priority := st.priority, passes := st.passes, inProgress := st.inProgress }

/-- `Store.SaveStory`: `INSERT ... ON CONFLICT(id) DO UPDATE SET` over a
table whose primary key is `id` alone. -/
def SaveStory (tbl : List StoryRow) (projectID : Int) (st : StoryDB) : List StoryRow :=
  if (tbl.find? (fun r => r.id = st.id)).isSome then
    tbl.map (fun r => if r.id = st.id then updRow st r else r)
  else
    tbl ++ [newRow projectID st]

/-- Insertion step for the `ORDER BY priority ASC` model. -/
def insertRow (r : StoryRow) : List StoryRow → List StoryRow
  | [] => [r]
  | x :: t => if r.priority ≤ x.priority then r :: x :: t else x :: insertRow r t

/-- Sort by ascending priority (SQLite leaves ties unspecified; any
priority-sorted order is a faithful model). -/
def sortByPriority : List StoryRow → List StoryRow
  | [] => []
  | x :: t => insertRow x (sortByPriority t)

/-- `Store.GetStories`: the project's rows ordered by priority. -/
def GetStories (tbl : List StoryRow) (projectID : Int) : List StoryRow :=
  sortByPriority (tbl.filter (fun r => r.projectId = projectID))

/-! ### Lemmas on the Go string primitives -/

theorem goIndexL_nil_right (s : List Char) : goIndexL s [] = some 0 := by
  unfold goIndexL; simp [List.isPrefixOf]

/-- Correctness of `goIndexL`: an index it returns is a genuine occurrence,
i.e. splicing the pattern back at that index reconstructs the string. -/
theorem goIndexL_spec (s sub : List Char) (i : Nat) (h : goIndexL s sub = some i) :
    s.take i ++ sub ++ s.drop (i + sub.length) = s := by
  induction s generalizing i with
  | nil =>
    unfold goIndexL at h
    by_cases hp : sub.isPrefixOf ([] : List Char)
    · simp [hp] at h
      subst h
      have hsub : sub = [] := List.prefix_nil.mp ( List.isPrefixOf_iff_prefix.mp hp)
      simp [hsub]
    · simp [hp] at h
  | cons c t ih =>
    unfold goIndexL at h
    by_cases hp : sub.isPrefixOf (c :: t)
    · simp [hp] at h
      subst h
      have hpre : sub <+: c :: t := List.isPrefixOf_iff_prefix.mp hp
      obtain ⟨r, hr⟩ := hpre
      simp [← hr, List.drop_left']
    · simp [hp] at h
      obtain ⟨j, hj, rfl⟩ := h
      simpa [List.take_succ_cons, List.drop_succ_cons, Nat.succ_add, List.append_assoc]
        using congrArg (c :: ·) (ih j hj)

theorem goIndex_spec (s sub : String) (i : Nat) (h : goIndex s sub = some i) :
    s.data.take i ++ sub.data ++ s.data.drop (i + sub.data.length) = s.data :=
  goIndexL_spec s.data sub.data i h

theorem goIndex_empty_pattern (s : String) : goIndex s "" = some 0 :=
  goIndexL_nil_right s.data

/-- Replacing the first occurrence of `old` by `old` itself gives the
string back. -/
theorem goReplace1_self (s old : String) : goReplace1 s old old = s := by
  unfold goReplace1
  cases h : goIndex s old with
  | none => rfl
  | some i =>
    exact congrArg String.mk (goIndex_spec s old i h)

theorem lookupFile_cons_of_pos (x : String × String) (t : List (String × String)) (p : String)
    (hx : x.1 = p) : lookupFile (x :: t) p = some x.2 := by
  unfold lookupFile
  rw [List.find?_cons_of_pos _ (by simpa using hx)]
  rfl

theorem lookupFile_cons_of_neg (x : String × String) (t : List (String × String)) (p : String)
    (hx : ¬ x.1 = p) : lookupFile (x :: t) p = lookupFile t p := by
  unfold lookupFile
  rw [List.find?_cons_of_neg _ (by simpa using hx)]

theorem lookupFile_map_update (p c : String) :
    ∀ fs : List (String × String), (List.find? (fun e => e.1 = p) fs).isSome = true →
      lookupFile (fs.map (fun e => if e.1 = p then (p, c) else e)) p = some c := by
  intro fs
  induction fs with
  | nil => intro hs; simp at hs
  | cons x t ih =>
    intro hs
    by_cases hx : x.1 = p
    · simp only [List.map_cons, if_pos hx]
      exact lookupFile_cons_of_pos _ _ _ rfl
    · simp only [List.map_cons, if_neg hx]
      rw [lookupFile_cons_of_neg _ _ _ hx]
      apply ih
      rwa [List.find?_cons_of_neg _ (by simpa using hx)] at hs

theorem lookupFile_append_new (p c : String) :
    ∀ fs : List (String × String), (List.find? (fun e => e.1 = p) fs).isSome = false →
      lookupFile (fs ++ [(p, c)]) p = some c := by
  intro fs
  induction fs with
  | nil => intro _; exact lookupFile_cons_of_pos _ _ _ rfl
  | cons x t ih =>
    intro hs
    by_cases hx : x.1 = p
    · rw [List.find?_cons_of_pos _ (by simpa using hx)] at hs
      simp at hs
    · simp only [List.cons_append]
      rw [lookupFile_cons_of_neg _ _ _ hx]
      apply ih
      rwa [List.find?_cons_of_neg _ (by simpa using hx)] at hs

/-- After `writeFileTo`, the written path holds the written content. -/
theorem lookupFile_writeFileTo_self (fs : List (String × String)) (p c : String) :
    lookupFile (writeFileTo fs p c) p = some c := by
  unfold writeFileTo
  split
  · next hs => exact lookupFile_map_update p c fs hs
  · next hs => exact lookupFile_append_new p c fs (by rwa [Bool.not_eq_true] at hs)

/-- Replacing the first occurrence of the empty pattern inserts the
replacement at the very beginning (Go `strings.Replace(s, "", new, 1)`). -/
theorem goReplace1_empty_old (s new : String) : goReplace1 s "" new = new ++ s := by
  unfold goReplace1
  rw [goIndex_empty_pattern]
  apply String.ext
  simp [String.data_append]

theorem goContains_empty_pattern (s : String) : goContains s "" = true := by
  unfold goContains
  rw [goIndex_empty_pattern]
  rfl

/-! ## Claim theorems for the tool executor -/

/-- **C7** — For every recognized tool name, `Execute` returns a non-nil
(fatal) error exactly when JSON parsing of the arguments fails; every
runtime tool failure (missing file, absent `old_string`, shell error,
bad glob pattern, unreadable directory) is reported as an output string
with a nil error. -/
theorem execute_fatal_iff_parse_failure (name : String) (args : RawArgs)
    (workDir : String) (w : World) (h : name ∈ recognizedTools) :
    (Execute name args workDir w).isFatal = parseFails name args := by
  have hcases : name = "Read" ∨ name = "Write" ∨ name = "Edit" ∨ name = "Bash" ∨
      name = "Glob" ∨ name = "Grep" ∨ name = "List" := by
    simpa [recognizedTools] using h
  rcases hcases with rfl | rfl | rfl | rfl | rfl | rfl | rfl
  · cases hx : args.asRead with
    | none => simp [Execute, executeRead, parseFails, hx, ExecOut.isFatal]
    | some a =>
      simp only [Execute, executeRead, parseFails, hx, Option.isNone_some]
      cases lookupFile w.files (resolvePath a.file_path workDir) <;>
        · dsimp only
          repeat' split
          all_goals rfl
  · cases hx : args.asWrite with
    | none => simp [Execute, executeWrite, parseFails, hx, ExecOut.isFatal]
    | some a => simp [Execute, executeWrite, parseFails, hx, ExecOut.isFatal]
  · cases hx : args.asEdit with
    | none => simp [Execute, executeEdit, parseFails, hx, ExecOut.isFatal]
    | some a =>
      simp only [Execute, executeEdit, parseFails, hx, Option.isNone_some]
      cases lookupFile w.files (resolvePath a.file_path workDir) <;>
        · dsimp only
          repeat' split
          all_goals rfl
  · cases hx : args.asBash with
    | none => simp [Execute, executeBash, parseFails, hx, ExecOut.isFatal]
    | some a =>
      simp only [Execute, executeBash, parseFails, hx, Option.isNone_some]
      repeat' split
      all_goals rfl
  · cases hx : args.asGlob with
    | none => simp [Execute, executeGlob, parseFails, hx, ExecOut.isFatal]
    | some a =>
      simp only [Execute, executeGlob, parseFails, hx, Option.isNone_some]
      repeat' split
      all_goals first
        | rfl
        | (rename_i hrec; simp only [globRecursive]
           repeat' split
           all_goals rfl)
  · cases hx : args.asGrep with
    | none => simp [Execute, executeGrep, parseFails, hx, ExecOut.isFatal]
    | some a =>
      simp only [Execute, executeGrep, parseFails, hx, Option.isNone_some]
      repeat' split
      all_goals rfl
  · cases hx : args.asList with
    | none => simp [Execute, executeList, parseFails, hx, ExecOut.isFatal]
    | some a =>
      simp only [Execute, executeList, parseFails, hx, Option.isNone_some]
      repeat' split
      all_goals rfl

/-- Witness for C7 at concrete inputs: a recognized tool with unparsable
arguments is fatal, and the same tool on parsed arguments with a missing
file is not. -/
theorem execute_fatal_iff_parse_failure_witness :
    ("Read" ∈ recognizedTools ∧
      (Execute "Read" {} "/w" { files := [] }).isFatal = parseFails "Read" {}) ∧
    ("Edit" ∈ recognizedTools ∧
      (Execute "Edit" { asEdit := some ⟨"f.txt", "a", "b"⟩ } "/w"
          { files := [] }).isFatal =
        parseFails "Edit" { asEdit := some ⟨"f.txt", "a", "b"⟩ }) :=
  ⟨⟨by decide, execute_fatal_iff_parse_failure "Read" {} "/w" { files := [] } (by decide)⟩,
   ⟨by decide, execute_fatal_iff_parse_failure "Edit" { asEdit := some ⟨"f.txt", "a", "b"⟩ }
      "/w" { files := [] } (by decide)⟩⟩

/-- **C8** — The edit tool: (i) when the file's content contains
`old_string`, exactly the first occurrence is replaced by `new_string`
and the rest of the content is unchanged (the new content splices
`new_string` at the first occurrence index, whose surroundings are the
original prefix and suffix); (ii) when `old_string` is absent the file is
left unchanged and a tool-level error string with nil fatal error is
returned; (iii) when `old_string = new_string` the resulting file content
equals the original. -/
theorem executeEdit_first_occurrence_semantics
    (a : EditArgs) (workDir : String) (w : World) (content : String)
    (hf : lookupFile w.files (resolvePath a.file_path workDir) = some content) :
    (goContains content a.old_string = true →
      ∃ i, goIndex content a.old_string = some i ∧
        content.data.take i ++ a.old_string.data ++
            content.data.drop (i + a.old_string.data.length) = content.data ∧
        executeEdit (some a) workDir w =
          .ok ("File edited successfully: " ++ a.file_path)
            (writeFileTo w.files (resolvePath a.file_path workDir)
              ⟨content.data.take i ++ a.new_string.data ++
                content.data.drop (i + a.old_string.data.length)⟩))
    ∧ (goContains content a.old_string = false →
        executeEdit (some a) workDir w =
          .ok ("Error: old_string not found in " ++ a.file_path) w.files)
    ∧ (a.old_string = a.new_string →
        lookupFile ((executeEdit (some a) workDir w).outFiles w.files)
          (resolvePath a.file_path workDir) = some content) := by
  refine ⟨?_, ?_, ?_⟩
  · intro hc
    obtain ⟨i, hi⟩ := Option.isSome_iff_exists.mp hc
    refine ⟨i, hi, goIndex_spec content a.old_string i hi, ?_⟩
    simp only [executeEdit, hf, goReplace1, hi, hc]
    simp
  · intro hc
    simp only [executeEdit, hf, hc]
    simp
  · intro heq
    cases hc : goContains content a.old_string with
    | false =>
      simp only [executeEdit, hf, hc]
      simpa [ExecOut.outFiles] using hf
    | true =>
      have hr : goReplace1 content a.old_string a.new_string = content := by
        rw [← heq]; exact goReplace1_self content a.old_string
      simp only [executeEdit, hf, hc]
      exact Eq.trans (lookupFile_writeFileTo_self w.files _ _) (congrArg some hr)

/-- Witness for C8: file `/w/f.txt` holds `abcbc`; editing `bc → XY`
replaces the first `bc` only. -/
theorem executeEdit_first_occurrence_semantics_witness :
    lookupFile [("/w/f.txt", "abcbc")] (resolvePath "f.txt" "/w") = some "abcbc" ∧
    ((goContains "abcbc" "bc" = true →
      ∃ i, goIndex "abcbc" "bc" = some i ∧
        "abcbc".data.take i ++ "bc".data ++
            "abcbc".data.drop (i + "bc".data.length) = "abcbc".data ∧
        executeEdit (some ⟨"f.txt", "bc", "XY"⟩) "/w" { files := [("/w/f.txt", "abcbc")] } =
          .ok ("File edited successfully: " ++ "f.txt")
            (writeFileTo [("/w/f.txt", "abcbc")] (resolvePath "f.txt" "/w")
              ⟨"abcbc".data.take i ++ "XY".data ++
                "abcbc".data.drop (i + "bc".data.length)⟩))
    ∧ (goContains "abcbc" "bc" = false →
        executeEdit (some ⟨"f.txt", "bc", "XY"⟩) "/w" { files := [("/w/f.txt", "abcbc")] } =
          .ok ("Error: old_string not found in " ++ "f.txt") [("/w/f.txt", "abcbc")])
    ∧ ((⟨"f.txt", "bc", "XY"⟩ : EditArgs).old_string = (⟨"f.txt", "bc", "XY"⟩ : EditArgs).new_string →
        lookupFile ((executeEdit (some ⟨"f.txt", "bc", "XY"⟩) "/w"
            { files := [("/w/f.txt", "abcbc")] }).outFiles [("/w/f.txt", "abcbc")])
          (resolvePath "f.txt" "/w") = some "abcbc")) :=
  ⟨by decide,
   executeEdit_first_occurrence_semantics ⟨"f.txt", "bc", "XY"⟩ "/w"
     { files := [("/w/f.txt", "abcbc")] } "abcbc" (by decide)⟩

/-- **C10** — The edit tool with `old_string = ""` never reports the
`old_string not found` tool-level error: it reports success and rewrites
the file to `new_string` followed by the original content. -/
theorem executeEdit_empty_old_prepends
    (a : EditArgs) (workDir : String) (w : World) (content : String)
    (hold : a.old_string = "")
    (hf : lookupFile w.files (resolvePath a.file_path workDir) = some content) :
    executeEdit (some a) workDir w =
      .ok ("File edited successfully: " ++ a.file_path)
        (writeFileTo w.files (resolvePath a.file_path workDir) (a.new_string ++ content)) ∧
    lookupFile ((executeEdit (some a) workDir w).outFiles w.files)
        (resolvePath a.file_path workDir) = some (a.new_string ++ content) := by
  have hc : goContains content a.old_string = true := hold ▸ goContains_empty_pattern content
  have hrepl : goReplace1 content a.old_string a.new_string = a.new_string ++ content :=
    hold ▸ goReplace1_empty_old content a.new_string
  constructor
  · simp only [executeEdit, hf, hc]
    simp [hrepl]
  · simp only [executeEdit, hf, hc]
    exact Eq.trans (lookupFile_writeFileTo_self w.files _ _) (congrArg some hrepl)

/-- Witness for C10: editing with empty `old_string` on `/w/f.txt`
containing `abc` prepends the replacement. -/
theorem executeEdit_empty_old_prepends_witness :
    ((⟨"f.txt", "", "XY"⟩ : EditArgs).old_string = "") ∧
    lookupFile [("/w/f.txt", "abc")] (resolvePath "f.txt" "/w") = some "abc" ∧
    (executeEdit (some ⟨"f.txt", "", "XY"⟩) "/w" { files := [("/w/f.txt", "abc")] } =
      .ok ("File edited successfully: " ++ "f.txt")
        (writeFileTo [("/w/f.txt", "abc")] (resolvePath "f.txt" "/w") ("XY" ++ "abc")) ∧
    lookupFile ((executeEdit (some ⟨"f.txt", "", "XY"⟩) "/w"
        { files := [("/w/f.txt", "abc")] }).outFiles [("/w/f.txt", "abc")])
      (resolvePath "f.txt" "/w") = some ("XY" ++ "abc")) :=
  ⟨rfl, by decide,
   executeEdit_empty_old_prepends ⟨"f.txt", "", "XY"⟩ "/w"
     { files := [("/w/f.txt", "abc")] } "abc" rfl (by decide)⟩

/-- **C1 (amended)** — Whenever an assistant text delta streamed from the
agent driver contains the literal `<chief-complete/>` (the marker the code
actually checks; the spec's `<complete/>` is not the code's marker), the
loop emits a Complete event and the iteration returns immediately: the
remainder of the stream is never examined and no further events are
emitted from that iteration. -/
theorem complete_marker_emits_complete (iter : Nat) (stopped ictx : Bool)
    (ev : AgentEvent) (rest : List AgentEvent)
    (herr : ev.error = none)
    (hm : goContains ev.textDelta "<chief-complete/>" = true) :
    processAgentEvents iter stopped ictx (ev :: rest) =
      ([{ type := .complete, iteration := iter, text := ev.textDelta }], none) := by
  have hne : ev.textDelta ≠ "" := by
    intro h0
    rw [h0] at hm
    exact absurd hm (by decide)
  simp [processAgentEvents, herr, hne, hm]

/-- Witness for the amended C1: a delta carrying the marker, followed by
a further pending stream event that is never processed. -/
theorem complete_marker_emits_complete_witness :
    ({ textDelta := "done <chief-complete/>" } : AgentEvent).error = none ∧
    goContains "done <chief-complete/>" "<chief-complete/>" = true ∧
    processAgentEvents 2 false false
        [{ textDelta := "done <chief-complete/>" }, { toolName := "Read" }] =
      ([{ type := .complete, iteration := 2, text := "done <chief-complete/>" }], none) :=
  ⟨rfl, by decide,
   complete_marker_emits_complete 2 false false { textDelta := "done <chief-complete/>" }
     [{ toolName := "Read" }] rfl (by decide)⟩

/-- **C1 (counterexample)** — a delta consisting of the literal
`<complete/>` (the marker the claim names) does not produce a Complete
event: the code checks for `<chief-complete/>` and forwards the delta as
plain AssistantText, continuing the iteration. -/
theorem complete_marker_counterexample :
    goContains "<complete/>" "<complete/>" = true ∧
    processAgentEvents 1 false false [{ textDelta := "<complete/>" }] =
      ([{ type := .assistantText, iteration := 1, text := "<complete/>" }], none) ∧
    ∀ e ∈ (processAgentEvents 1 false false [{ textDelta := "<complete/>" }]).1,
      e.type ≠ LEventType.complete := by
  exact ⟨by decide, by decide, by decide⟩

/-- Full characterization of the per-round tool-call batch: events are
the per-call ToolStart/ToolResult pairs in order (results computed by
sequential threading), the history gains one keyed tool message per call
in order, and the final world is the sequential fold of the calls. -/
theorem execBatch_spec (wd : String) :
    ∀ (tcs : List ToolCall) (w : World) (msgs : List Message),
      execBatch wd w msgs tcs =
        ((tcs.zip (seqToolResults wd w tcs)).flatMap
            (fun p => [DrvEvent.toolStart p.1.name p.1.args, DrvEvent.toolResult p.2]),
         msgs ++ (tcs.zip (seqToolResults wd w tcs)).map (fun p => toolMsg p.1 p.2),
         tcs.foldl (fun acc tc => (runToolCall wd acc tc).2) w) := by
  intro tcs
  induction tcs with
  | nil => intro w msgs; simp [execBatch, seqToolResults]
  | cons tc rest ih =>
    intro w msgs
    simp only [execBatch, seqToolResults, ih, List.zip_cons_cons, List.flatMap_cons,
      List.map_cons, List.foldl_cons, List.cons_append, List.append_assoc,
      List.singleton_append, List.nil_append]

theorem seqToolResults_length (wd : String) :
    ∀ (tcs : List ToolCall) (w : World), (seqToolResults wd w tcs).length = tcs.length := by
  intro tcs
  induction tcs with
  | nil => intro w; rfl
  | cons tc rest ih => intro w; simp [seqToolResults, ih]

/-- **C3** — Within one driver round, the tool calls of a batch are
executed strictly sequentially in the order received: the event trace is
the concatenation of per-call `[ToolStart, ToolResult]` pairs in batch
order, each result computed in the world produced by the preceding calls;
the history receives one tool message per call, keyed by that call's
tool-call id, appended in the same order (so each call's events and
message precede the next call's); and every call of the batch is covered
(the result list has the batch's length). -/
theorem toolBatch_sequential (wd : String) (w : World) (msgs : List Message)
    (tcs : List ToolCall) :
    (execBatch wd w msgs tcs).1 =
      (tcs.zip (seqToolResults wd w tcs)).flatMap
        (fun p => [DrvEvent.toolStart p.1.name p.1.args, DrvEvent.toolResult p.2]) ∧
    (execBatch wd w msgs tcs).2.1 =
      msgs ++ (tcs.zip (seqToolResults wd w tcs)).map (fun p => toolMsg p.1 p.2) ∧
    (execBatch wd w msgs tcs).2.2 =
      tcs.foldl (fun acc tc => (runToolCall wd acc tc).2) w ∧
    (seqToolResults wd w tcs).length = tcs.length := by
  have h := execBatch_spec wd tcs w msgs
  exact ⟨by rw [h], by rw [h], by rw [h], seqToolResults_length wd tcs w⟩

theorem done_not_in_execBatch (wd : String) (w : World) (msgs : List Message)
    (tcs : List ToolCall) : DrvEvent.done ∉ (execBatch wd w msgs tcs).1 := by
  rw [execBatch_spec wd tcs w msgs]
  intro hmem
  simp only [List.mem_flatMap] at hmem
  obtain ⟨p, _, hp⟩ := hmem
  simp at hp

theorem runAgentLoop_exhausts (wd : String) (chat : List Message → ChatTurn) (total : Nat)
    (hchat : ∀ ms, (chat ms).err = none ∧ (chat ms).toolCalls ≠ []) :
    ∀ (fuel : Nat) (msgs : List Message) (w : World),
      (runAgentLoop wd chat total fuel msgs w).1.getLast? =
        some (.errorEv ("max tool rounds (" ++ toString total ++ ") exceeded")) ∧
      DrvEvent.done ∉ (runAgentLoop wd chat total fuel msgs w).1 := by
  intro fuel
  induction fuel with
  | zero =>
    intro msgs w
    exact ⟨rfl, by simp [runAgentLoop]⟩
  | succ fuel ih =>
    intro msgs w
    obtain ⟨he, hc⟩ := hchat msgs
    simp only [runAgentLoop, he]
    rw [if_neg hc]
    obtain ⟨h1, h2⟩ := ih
      (execBatch wd w (msgs ++ [assistantMsg (chat msgs)]) (chat msgs).toolCalls).2.1
      (execBatch wd w (msgs ++ [assistantMsg (chat msgs)]) (chat msgs).toolCalls).2.2
    have hne : (runAgentLoop wd chat total fuel
        (execBatch wd w (msgs ++ [assistantMsg (chat msgs)]) (chat msgs).toolCalls).2.1
        (execBatch wd w (msgs ++ [assistantMsg (chat msgs)]) (chat msgs).toolCalls).2.2).1
        ≠ [] := by
      intro hnil
      rw [hnil] at h1
      exact Option.noConfusion h1
    constructor
    · rw [List.getLast?_append, List.getLast?_append, h1]
      rfl
    · intro hmem
      rcases List.mem_append.mp hmem with hmem | hmem
      · rcases List.mem_append.mp hmem with hmem | hmem
        · obtain ⟨d, _, hd⟩ := List.mem_map.mp hmem
          exact DrvEvent.noConfusion hd
        · exact done_not_in_execBatch wd w _ _ hmem
      · exact h2 hmem

/-- **C4** — When every round's chat turn returns at least one tool call
(and no stream error), the driver runs exactly its round budget
(`max_tool_rounds`, defaulting to 50 when 0 is passed), then stops
requesting further turns: the event stream ends with the
`max tool rounds exceeded` Error event and no Done event is emitted. -/
theorem maxToolRounds_exhaustion (wd : String) (chat : List Message → ChatTurn)
    (maxToolRounds : Nat) (msgs : List Message) (w : World)
    (hchat : ∀ ms, (chat ms).err = none ∧ (chat ms).toolCalls ≠ []) :
    (RunAgent wd chat maxToolRounds msgs w).1.getLast? =
      some (.errorEv ("max tool rounds (" ++
        toString (if maxToolRounds = 0 then 50 else maxToolRounds) ++ ") exceeded")) ∧
    DrvEvent.done ∉ (RunAgent wd chat maxToolRounds msgs w).1 := by
  unfold RunAgent
  exact runAgentLoop_exhausts wd chat _ hchat _ msgs w

/-- Witness for C4: a chat oracle that always requests one (unknown)
tool; with a budget of 1 round the stream ends in the rounds-exceeded
error and has no Done. -/
theorem maxToolRounds_exhaustion_witness :
    (RunAgent "/w" (fun _ => { toolCalls := [⟨"1", "Bogus", {}⟩] }) 1 []
        { files := [] }).1.getLast? =
      some (.errorEv ("max tool rounds (" ++
        toString (if (1 : Nat) = 0 then 50 else 1) ++ ") exceeded")) ∧
    DrvEvent.done ∉
      (RunAgent "/w" (fun _ => { toolCalls := [⟨"1", "Bogus", {}⟩] }) 1 []
        { files := [] }).1 :=
  maxToolRounds_exhaustion "/w" (fun _ => { toolCalls := [⟨"1", "Bogus", {}⟩] }) 1 []
    { files := [] } (fun _ => ⟨rfl, List.cons_ne_nil _ _⟩)

/-- **C9** — With `max_iter = 0` (loop not stopped or paused on entry),
the first pass of `Run` emits a MaxIterationsReached event carrying
iteration 0 and returns nil: the trace holds no IterationStart before it
(it holds nothing else at all) and the ghost list of iterations whose
body ran is empty — no agent invocation, retry or reconciliation
starts. -/
theorem maxIter_zero_immediate (w : RunWorld) (fuel : Nat)
    (hs : w.stoppedAt 1 = false) (hp : w.pausedAt 1 = false) :
    loopRun w 0 (fuel + 1) 0 =
      ([{ type := .maxIterationsReached, iteration := 0 }], [], none) := by
  simp [loopRun, hs, hp]

/-- Witness for C9 at the default world. -/
theorem maxIter_zero_immediate_witness :
    loopRun {} 0 1 0 = ([{ type := .maxIterationsReached, iteration := 0 }], [], none) :=
  maxIter_zero_immediate {} 0 rfl rfl

/-! ## Story store lemmas and claims -/

theorem insertRow_perm (r : StoryRow) : ∀ l : List StoryRow, List.Perm (insertRow r l) (r :: l) := by
  intro l
  induction l with
  | nil => exact List.Perm.refl _
  | cons x t ih =>
    unfold insertRow
    split
    · exact List.Perm.refl _
    · exact ((ih.cons x).trans (List.Perm.swap r x t))

theorem sortByPriority_perm : ∀ l : List StoryRow, List.Perm (sortByPriority l) l := by
  intro l
  induction l with
  | nil => exact List.Perm.refl _
  | cons x t ih => exact (insertRow_perm x (sortByPriority t)).trans (ih.cons x)

theorem getStories_countP (tbl : List StoryRow) (pid : Int) (p : StoryRow → Bool) :
    (GetStories tbl pid).countP p = ((tbl.filter (fun r => r.projectId = pid)).countP p) :=
  (sortByPriority_perm _).countP_eq p

theorem getStories_mem (tbl : List StoryRow) (pid : Int) (r : StoryRow) :
    r ∈ GetStories tbl pid ↔ r ∈ tbl.filter (fun r => r.projectId = pid) :=
  (sortByPriority_perm _).mem_iff

theorem countP_filter_id_eq_zero (st : StoryDB) (q : StoryRow → Bool) :
    ∀ tbl : List StoryRow, (∀ r ∈ tbl, ¬ r.id = st.id) →
      ((tbl.filter q).countP (fun r => r.id = st.id)) = 0 := by
  intro tbl hno
  rw [List.countP_eq_zero]
  intro r hr
  simpa using hno r (List.mem_of_mem_filter hr)

theorem map_upd_id (st : StoryDB) :
    ∀ t : List StoryRow, (∀ r ∈ t, ¬ r.id = st.id) →
      t.map (fun r => if r.id = st.id then updRow st r else r) = t := by
  intro t h
  induction t with
  | nil => rfl
  | cons x t ih =>
    rw [List.map_cons, if_neg (h x (List.mem_cons_self x t)),
        ih (fun r hr => h r (List.mem_cons_of_mem x hr))]

theorem countP_update_case (st : StoryDB) (pid : Int) :
    ∀ tbl : List StoryRow, tbl.Pairwise (fun a b => a.id ≠ b.id) →
      (List.find? (fun r => r.id = st.id) tbl).isSome = true →
      (∀ r ∈ tbl, r.id = st.id → r.projectId = pid) →
      (((tbl.map (fun r => if r.id = st.id then updRow st r else r)).filter
        (fun r => r.projectId = pid)).countP (fun r => r.id = st.id)) = 1 := by
  intro tbl
  induction tbl with
  | nil => intro _ hs _; simp at hs
  | cons x t ih =>
    intro hpw hs hsame
    have hpw' := (List.pairwise_cons.mp hpw).2
    by_cases hx : x.id = st.id
    · have hproj : x.projectId = pid := hsame x (List.mem_cons_self x t) hx
      have hrest : ∀ r ∈ t, ¬ r.id = st.id := fun r hr hrid =>
        (List.pairwise_cons.mp hpw).1 r hr (hx.trans hrid.symm)
      rw [List.map_cons, if_pos hx, map_upd_id st t hrest]
      rw [List.filter_cons_of_pos (by simpa [updRow] using hproj)]
      rw [List.countP_cons_of_pos _ _ (by simpa [updRow] using hx)]
      rw [countP_filter_id_eq_zero st _ t hrest]
    · have hs' : (List.find? (fun r => r.id = st.id) t).isSome = true := by
        rwa [List.find?_cons_of_neg _ (by simpa using hx)] at hs
      have hsame' : ∀ r ∈ t, r.id = st.id → r.projectId = pid := fun r hr =>
        hsame r (List.mem_cons_of_mem x hr)
      rw [List.map_cons, if_neg hx]
      by_cases hxp : x.projectId = pid
      · rw [List.filter_cons_of_pos (by simpa using hxp),
            List.countP_cons_of_neg _ _ (by simpa using hx)]
        exact ih hpw' hs' hsame'
      · rw [List.filter_cons_of_neg (by simpa using hxp)]
        exact ih hpw' hs' hsame'

theorem no_id_of_find?_eq_false (st : StoryDB) (tbl : List StoryRow)
    (hnone : (List.find? (fun r => r.id = st.id) tbl).isSome = false) :
    ∀ r ∈ tbl, ¬ r.id = st.id := by
  intro r hr hrid
  have hsome : (List.find? (fun r => r.id = st.id) tbl).isSome = true :=
    List.find?_isSome.mpr ⟨r, hr, by simpa using hrid⟩
  rw [hsome] at hnone
  exact Bool.noConfusion hnone

theorem countP_insert_case (st : StoryDB) (pid : Int) (tbl : List StoryRow)
    (hnone : (List.find? (fun r => r.id = st.id) tbl).isSome = false) :
    (((tbl ++ [newRow pid st]).filter (fun r => r.projectId = pid)).countP
      (fun r => r.id = st.id)) = 1 := by
  rw [List.filter_append, List.countP_append,
      countP_filter_id_eq_zero st _ tbl (no_id_of_find?_eq_false st tbl hnone)]
  simp [newRow]

theorem saveStory_fields (tbl : List StoryRow) (pid : Int) (st : StoryDB) :
    ∀ r ∈ SaveStory tbl pid st, r.id = st.id →
      r.title = st.title ∧ r.description = st.description ∧ r.priority = st.priority ∧
      r.passes = st.passes ∧ r.inProgress = st.inProgress := by
  intro r hr hid
  unfold SaveStory at hr
  split at hr
  · obtain ⟨x, hx, hxr⟩ := List.mem_map.mp hr
    by_cases h : x.id = st.id
    · rw [if_pos h] at hxr
      subst hxr
      simp [updRow]
    · rw [if_neg h] at hxr
      subst hxr
      exact absurd hid h
  · next hnone =>
    rcases List.mem_append.mp hr with h | h
    · exact absurd hid
        (no_id_of_find?_eq_false st tbl (by rwa [Bool.not_eq_true] at hnone) r h)
    · rw [List.mem_singleton] at h
      subst h
      simp [newRow]

/-- **C2 (amended)** — After `SaveStory(pid, st)` on a table whose ids
are unique (the primary key) and in which any existing story with
`st.id` already belongs to project `pid`, `GetStories(pid)` contains
exactly one story with that id, and its title, description, priority,
passes and in_progress equal the saved values.  (The cross-project case
the original claim includes is refuted separately: the upsert never
updates `project_id`.) -/
theorem saveStory_getStories_upsert (tbl : List StoryRow) (pid : Int) (st : StoryDB)
    (huniq : tbl.Pairwise (fun a b => a.id ≠ b.id))
    (hsame : ∀ r ∈ tbl, r.id = st.id → r.projectId = pid) :
    ((GetStories (SaveStory tbl pid st) pid).countP (fun r => r.id = st.id)) = 1 ∧
    ∀ r ∈ GetStories (SaveStory tbl pid st) pid, r.id = st.id →
      r.title = st.title ∧ r.description = st.description ∧ r.priority = st.priority ∧
      r.passes = st.passes ∧ r.inProgress = st.inProgress := by
  constructor
  · rw [getStories_countP]
    unfold SaveStory
    split
    · next hfound => exact countP_update_case st pid tbl huniq hfound hsame
    · next hnone =>
      exact countP_insert_case st pid tbl (by rwa [Bool.not_eq_true] at hnone)
  · intro r hr hid
    exact saveStory_fields tbl pid st r
      (List.mem_of_mem_filter ((getStories_mem _ _ _).mp hr)) hid

/-- Witness for the amended C2: upsert of `US-1` into its own project. -/
theorem saveStory_getStories_upsert_witness :
    ((GetStories (SaveStory [⟨"US-1", 1, "old", "d", "[]", 1, false, false⟩] 1
        ⟨"US-1", "new", "d2", "[]", 2, true, false⟩) 1).countP
      (fun r => r.id = ("US-1" : String))) = 1 ∧
    ∀ r ∈ GetStories (SaveStory [⟨"US-1", 1, "old", "d", "[]", 1, false, false⟩] 1
        ⟨"US-1", "new", "d2", "[]", 2, true, false⟩) 1,
      r.id = ("US-1" : String) →
      r.title = "new" ∧ r.description = "d2" ∧ r.priority = 2 ∧
      r.passes = true ∧ r.inProgress = false :=
  saveStory_getStories_upsert [⟨"US-1", 1, "old", "d", "[]", 1, false, false⟩] 1
    ⟨"US-1", "new", "d2", "[]", 2, true, false⟩ (by decide) (by decide)

/-- **C2 (counterexample)** — saving story `US-1` under project 2 while
a story `US-1` exists under project 1: the conflict-update leaves
`project_id` at 1, so `GetStories 2` holds no story with that id — the
story (with updated fields) is still under project 1. -/
theorem saveStory_cross_project_counterexample :
    ((GetStories (SaveStory [⟨"US-1", 1, "old", "d", "[]", 1, false, false⟩] 2
        ⟨"US-1", "new", "d2", "[]", 2, true, false⟩) 2).countP
      (fun r => r.id = ("US-1" : String))) = 0 ∧
    GetStories (SaveStory [⟨"US-1", 1, "old", "d", "[]", 1, false, false⟩] 2
        ⟨"US-1", "new", "d2", "[]", 2, true, false⟩) 1 =
      [⟨"US-1", 1, "new", "d2", "[]", 2, true, false⟩] := by
  exact ⟨by decide, by decide⟩

/-! ## Retry-loop lemmas -/

theorem retryBody_stopped (w : RetryWorld) (attempt : Nat)
    (cont : String → List LEvent × List RetryStep × Option String)
    (h : w.stoppedBefore attempt = true) :
    retryBody w attempt cont = ([], [.stoppedReturn attempt], none) := by
  simp [retryBody, h]

theorem retryBody_success (w : RetryWorld) (attempt : Nat)
    (cont : String → List LEvent × List RetryStep × Option String)
    (h1 : w.stoppedBefore attempt = false) (h2 : w.iterResult attempt = none) :
    retryBody w attempt cont = ([], [.attemptRun attempt none], none) := by
  simp [retryBody, h1, h2]

theorem retryBody_ctxErr (w : RetryWorld) (attempt : Nat)
    (cont : String → List LEvent × List RetryStep × Option String) (e ce : String)
    (h1 : w.stoppedBefore attempt = false) (h2 : w.iterResult attempt = some e)
    (h3 : w.ctxErrAfter attempt = some ce) :
    retryBody w attempt cont = ([], [.attemptRun attempt (some e)], some ce) := by
  simp [retryBody, h1, h2, h3]

theorem retryBody_stopAfter (w : RetryWorld) (attempt : Nat)
    (cont : String → List LEvent × List RetryStep × Option String) (e : String)
    (h1 : w.stoppedBefore attempt = false) (h2 : w.iterResult attempt = some e)
    (h3 : w.ctxErrAfter attempt = none) (h4 : w.stoppedAfter attempt = true) :
    retryBody w attempt cont =
      ([], [.attemptRun attempt (some e), .stoppedReturn attempt], none) := by
  simp [retryBody, h1, h2, h3, h4]

theorem retryBody_continue (w : RetryWorld) (attempt : Nat)
    (cont : String → List LEvent × List RetryStep × Option String) (e : String)
    (h1 : w.stoppedBefore attempt = false) (h2 : w.iterResult attempt = some e)
    (h3 : w.ctxErrAfter attempt = none) (h4 : w.stoppedAfter attempt = false) :
    retryBody w attempt cont =
      ((cont e).1, .attemptRun attempt (some e) :: (cont e).2.1, (cont e).2.2) := by
  simp [retryBody, h1, h2, h3, h4]

theorem retryBody_events_cases (w : RetryWorld) (attempt : Nat)
    (cont : String → List LEvent × List RetryStep × Option String) :
    (retryBody w attempt cont).1 = [] ∨
    ∃ e, w.iterResult attempt = some e ∧ (retryBody w attempt cont).1 = (cont e).1 := by
  unfold retryBody
  split
  · exact Or.inl rfl
  · split
    · exact Or.inl rfl
    · next e heq =>
      split
      · exact Or.inl rfl
      · split
        · exact Or.inl rfl
        · exact Or.inr ⟨e, heq, rfl⟩

theorem retryGo_zero (cfg : RetryConfig) (w : RetryWorld) (iter a : Nat)
    (last : Option String) :
    retryGo cfg w iter 0 a last = ([], [], some (maxRetriesMsg cfg.maxRetries last)) := rfl

theorem retryGo_succ_zero (cfg : RetryConfig) (w : RetryWorld) (iter fuel : Nat)
    (last : Option String) :
    retryGo cfg w iter (fuel + 1) 0 last =
      retryBody w 0 (fun e => retryGo cfg w iter fuel 1 (some e)) := by
  simp [retryGo]

theorem retryGo_succ_disabled (cfg : RetryConfig) (w : RetryWorld) (iter fuel a : Nat)
    (last : Option String) (ha : 0 < a) (hen : cfg.enabled = false) :
    retryGo cfg w iter (fuel + 1) a last = ([], [], last) := by
  simp [retryGo, ha, hen]

theorem retryGo_succ_waitAborted (cfg : RetryConfig) (w : RetryWorld) (iter fuel a : Nat)
    (last : Option String) (ha : 0 < a) (hen : cfg.enabled = true)
    (hd : 0 < delayFor cfg a) (hcd : w.ctxDoneInWait a = true) :
    retryGo cfg w iter (fuel + 1) a last =
      ([retryEvent iter cfg a], [.waitAborted a], some (w.ctxErrInWait a)) := by
  simp [retryGo, ha, hen, hd, hcd]

theorem retryGo_succ_normal (cfg : RetryConfig) (w : RetryWorld) (iter fuel a : Nat)
    (last : Option String) (ha : 0 < a) (hen : cfg.enabled = true)
    (hnab : ¬ (0 < delayFor cfg a ∧ w.ctxDoneInWait a = true)) :
    retryGo cfg w iter (fuel + 1) a last =
      ((retryEvent iter cfg a) ::
        (retryBody w a (fun e => retryGo cfg w iter fuel (a + 1) (some e))).1,
       (if 0 < delayFor cfg a then [RetryStep.waitFull a (delayFor cfg a)] else []) ++
        (retryBody w a (fun e => retryGo cfg w iter fuel (a + 1) (some e))).2.1,
       (retryBody w a (fun e => retryGo cfg w iter fuel (a + 1) (some e))).2.2) := by
  simp only [retryGo, if_pos ha, hen, if_neg hnab]
  simp

theorem retryCounts_append (a b : List LEvent) :
    retryCounts (a ++ b) = retryCounts a ++ retryCounts b := by
  simp [retryCounts, List.filterMap_append]

theorem attemptsOf_append (a b : List RetryStep) :
    attemptsOf (a ++ b) = attemptsOf a ++ attemptsOf b := by
  simp [attemptsOf, List.filterMap_append]

theorem retryCounts_retryEvent_cons (iter : Nat) (cfg : RetryConfig) (a : Nat)
    (evs : List LEvent) :
    retryCounts (retryEvent iter cfg a :: evs) = a :: retryCounts evs := by
  simp [retryCounts, retryEvent]

/-- Composition through a prefix of cleanly failing attempts: when every
attempt in `[a, k)` fails with no stop and no context cancellation, the
loop's outcome is the outcome of the frame starting at attempt `k`,
preceded by the prefix's Retrying events (attempts `max a 1 .. k-1`) and
attempt-run trace (attempts `a .. k-1`), whose waits all complete. -/
theorem retryGo_prefix (cfg : RetryConfig) (w : RetryWorld) (iter : Nat) (f : Nat → String)
    (k : Nat) (hen : cfg.enabled = true)
    (hsb : ∀ j, j < k → w.stoppedBefore j = false)
    (hsa : ∀ j, j < k → w.stoppedAfter j = false)
    (hcd : ∀ j, j < k → w.ctxDoneInWait j = false)
    (hca : ∀ j, j < k → w.ctxErrAfter j = none)
    (hir : ∀ j, j < k → w.iterResult j = some (f j)) :
    ∀ (fuel a : Nat), a ≤ k → k < a + fuel → ∀ last : Option String,
      ∃ (E : List LEvent) (S : List RetryStep) (last' : Option String),
        retryGo cfg w iter fuel a last =
          (E ++ (retryGo cfg w iter (fuel - (k - a)) k last').1,
           S ++ (retryGo cfg w iter (fuel - (k - a)) k last').2.1,
           (retryGo cfg w iter (fuel - (k - a)) k last').2.2) ∧
        retryCounts E = List.range' (max a 1) (k - max a 1) ∧
        attemptsOf S = List.range' a (k - a) ∧
        (∀ j, RetryStep.waitAborted j ∉ S) := by
  intro fuel
  induction fuel with
  | zero => intro a _ hfa _; omega
  | succ fuel ih =>
    intro a hak hfa last
    by_cases hlt : a < k
    · have hrec := ih (a + 1) (by omega) (by omega) (some (f a))
      obtain ⟨E, S, last', heq, hE, hS, hW⟩ := hrec
      have hfr : fuel - (k - (a + 1)) = fuel + 1 - (k - a) := by omega
      by_cases ha : 0 < a
      · refine ⟨retryEvent iter cfg a :: E,
          (if 0 < delayFor cfg a then [RetryStep.waitFull a (delayFor cfg a)] else []) ++
            RetryStep.attemptRun a (some (f a)) :: S, last', ?_, ?_, ?_, ?_⟩
        · rw [retryGo_succ_normal cfg w iter fuel a last ha hen
            (by simp [hcd a hlt]),
            retryBody_continue w a _ (f a) (hsb a hlt) (hir a hlt) (hca a hlt) (hsa a hlt),
            heq, hfr]
          simp
        · rw [retryCounts_retryEvent_cons, hE]
          have h1 : max a 1 = a := by omega
          have h2 : max (a + 1) 1 = a + 1 := by omega
          rw [h1, h2, show k - a = (k - (a + 1)) + 1 by omega, List.range'_succ]
        · rw [attemptsOf_append]
          have hws : attemptsOf
              (if 0 < delayFor cfg a then [RetryStep.waitFull a (delayFor cfg a)] else [])
              = [] := by
            split <;> simp [attemptsOf]
          rw [hws]
          have : attemptsOf (RetryStep.attemptRun a (some (f a)) :: S) =
              a :: attemptsOf S := by simp [attemptsOf]
          rw [List.nil_append, this, hS,
            show k - a = (k - (a + 1)) + 1 by omega, List.range'_succ]
        · intro j hj
          rcases List.mem_append.mp hj with hj | hj
          · revert hj; split <;> simp
          · rcases List.mem_cons.mp hj with hj | hj
            · exact RetryStep.noConfusion hj
            · exact hW j hj
      · have ha0 : a = 0 := by omega
        subst ha0
        refine ⟨E, RetryStep.attemptRun 0 (some (f 0)) :: S, last', ?_, ?_, ?_, ?_⟩
        · rw [retryGo_succ_zero,
            retryBody_continue w 0 _ (f 0) (hsb 0 hlt) (hir 0 hlt) (hca 0 hlt) (hsa 0 hlt),
            heq, hfr]
          simp
        · rw [hE]
          have h2 : max (0 + 1) 1 = 1 := by omega
          have h1 : max 0 1 = 1 := by omega
          rw [h1, h2]
        · have : attemptsOf (RetryStep.attemptRun 0 (some (f 0)) :: S) =
              0 :: attemptsOf S := by simp [attemptsOf]
          rw [this, hS, show k - 0 = (k - (0 + 1)) + 1 by omega, List.range'_succ]
        · intro j hj
          rcases List.mem_cons.mp hj with hj | hj
          · exact RetryStep.noConfusion hj
          · exact hW j hj
    · have hak' : a = k := by omega
      subst hak'
      refine ⟨[], [], last, ?_, ?_, ?_, ?_⟩
      · simp
      · simp [retryCounts]
      · simp [attemptsOf]
      · intro j hj; exact List.not_mem_nil _ hj

/-- Every event a `retryGo` run emits is a Retrying event, and the
attempt numbers they carry are consecutive from the starting attempt,
with at most `fuel` of them. -/
theorem retryGo_events_range (cfg : RetryConfig) (w : RetryWorld) (iter : Nat) :
    ∀ (fuel a : Nat) (last : Option String), 1 ≤ a →
      ∃ m, m ≤ fuel ∧
        (retryGo cfg w iter fuel a last).1 = (List.range' a m).map (retryEvent iter cfg) := by
  intro fuel
  induction fuel with
  | zero => intro a last _; exact ⟨0, Nat.le_refl 0, rfl⟩
  | succ fuel ih =>
    intro a last ha
    cases hen : cfg.enabled with
    | false =>
      rw [retryGo_succ_disabled cfg w iter fuel a last ha hen]
      exact ⟨0, Nat.zero_le _, rfl⟩
    | true =>
      by_cases hab : 0 < delayFor cfg a ∧ w.ctxDoneInWait a = true
      · rw [retryGo_succ_waitAborted cfg w iter fuel a last ha hen hab.1 hab.2]
        exact ⟨1, by omega, by simp [List.range'_succ]⟩
      · rw [retryGo_succ_normal cfg w iter fuel a last ha hen hab]
        rcases retryBody_events_cases w a
            (fun e => retryGo cfg w iter fuel (a + 1) (some e)) with hb | ⟨e, _, hb⟩
        · refine ⟨1, by omega, ?_⟩
          simp only [hb]
          simp [List.range'_succ]
        · obtain ⟨m, hm, hevs⟩ := ih (a + 1) (some e) (by omega)
          refine ⟨m + 1, by omega, ?_⟩
          simp only [hb, hevs, List.range'_succ, List.map_cons]

/-- Top-level form of the Retrying bound: at most `maxRetries` Retrying
events, carrying consecutive attempt numbers from 1. -/
theorem runIterationWithRetry_events_range (cfg : RetryConfig) (w : RetryWorld) (iter : Nat) :
    ∃ m, m ≤ cfg.maxRetries ∧
      (runIterationWithRetry cfg w iter).1 =
        (List.range' 1 m).map (retryEvent iter cfg) := by
  unfold runIterationWithRetry
  rw [retryGo_succ_zero]
  rcases retryBody_events_cases w 0
      (fun e => retryGo cfg w iter cfg.maxRetries 1 (some e)) with hb | ⟨e, _, hb⟩
  · exact ⟨0, Nat.zero_le _, by simp [hb]⟩
  · obtain ⟨m, hm, hevs⟩ :=
      retryGo_events_range cfg w iter cfg.maxRetries 1 (some e) (Nat.le_refl 1)
    exact ⟨m, hm, by rw [hb, hevs]⟩

/-- When every attempt fails with no stop or cancellation, the call
returns the wrapped error of the final attempt. -/
theorem retryGo_all_fail (cfg : RetryConfig) (w : RetryWorld) (iter : Nat) (f : Nat → String)
    (hen : cfg.enabled = true)
    (hsb : ∀ j, w.stoppedBefore j = false) (hsa : ∀ j, w.stoppedAfter j = false)
    (hcd : ∀ j, w.ctxDoneInWait j = false) (hca : ∀ j, w.ctxErrAfter j = none)
    (hir : ∀ j, w.iterResult j = some (f j)) :
    ∀ (fuel a : Nat) (last : Option String),
      (retryGo cfg w iter (fuel + 1) a last).2.2 =
        some (maxRetriesMsg cfg.maxRetries (some (f (a + fuel)))) := by
  intro fuel
  induction fuel with
  | zero =>
    intro a last
    by_cases ha : 0 < a
    · rw [retryGo_succ_normal cfg w iter 0 a last ha hen (by simp [hcd a]),
        retryBody_continue w a _ (f a) (hsb a) (hir a) (hca a) (hsa a)]
      simp [retryGo_zero]
    · have ha0 : a = 0 := by omega
      subst ha0
      rw [retryGo_succ_zero,
        retryBody_continue w 0 _ (f 0) (hsb 0) (hir 0) (hca 0) (hsa 0)]
      simp [retryGo_zero]
  | succ fuel ih =>
    intro a last
    by_cases ha : 0 < a
    · rw [retryGo_succ_normal cfg w iter (fuel + 1) a last ha hen (by simp [hcd a]),
        retryBody_continue w a _ (f a) (hsb a) (hir a) (hca a) (hsa a)]
      have h := ih (a + 1) (some (f a))
      rw [show a + (fuel + 1) = (a + 1) + fuel by omega]
      exact h
    · have ha0 : a = 0 := by omega
      subst ha0
      rw [retryGo_succ_zero,
        retryBody_continue w 0 _ (f 0) (hsb 0) (hir 0) (hca 0) (hsa 0)]
      have h := ih 1 (some (f 0))
      rw [show 0 + (fuel + 1) = 1 + fuel by omega]
      exact h

/-- Context cancellation observed right after failing attempt `k` is not
retried: the call returns the context error, exactly attempts `0..k`
ran, and only Retrying events `1..k` were emitted. -/
theorem runIterationWithRetry_ctx_at (cfg : RetryConfig) (w : RetryWorld) (iter : Nat)
    (f : Nat → String) (k : Nat) (ce : String)
    (hen : cfg.enabled = true) (hk : k ≤ cfg.maxRetries)
    (hsb : ∀ j, j ≤ k → w.stoppedBefore j = false)
    (hsa : ∀ j, j < k → w.stoppedAfter j = false)
    (hcd : ∀ j, j ≤ k → w.ctxDoneInWait j = false)
    (hca : ∀ j, j < k → w.ctxErrAfter j = none)
    (hcak : w.ctxErrAfter k = some ce)
    (hir : ∀ j, j ≤ k → w.iterResult j = some (f j)) :
    (runIterationWithRetry cfg w iter).2.2 = some ce ∧
    attemptsOf (runIterationWithRetry cfg w iter).2.1 = List.range' 0 (k + 1) ∧
    retryCounts (runIterationWithRetry cfg w iter).1 = List.range' 1 k := by
  obtain ⟨E, S, last', heq, hE, hS, _⟩ :=
    retryGo_prefix cfg w iter f k hen (fun j hj => hsb j (Nat.le_of_lt hj)) hsa
      (fun j hj => hcd j (Nat.le_of_lt hj)) hca (fun j hj => hir j (Nat.le_of_lt hj))
      (cfg.maxRetries + 1) 0 (Nat.zero_le k) (by omega) none
  obtain ⟨fr, hfrs⟩ : ∃ fr, cfg.maxRetries + 1 - (k - 0) = fr + 1 := ⟨cfg.maxRetries - k, by omega⟩
  have hframe : retryGo cfg w iter (cfg.maxRetries + 1 - (k - 0)) k last' =
      ((if 0 < k then [retryEvent iter cfg k] else []),
       (if 0 < k ∧ 0 < delayFor cfg k then [RetryStep.waitFull k (delayFor cfg k)] else [])
         ++ [RetryStep.attemptRun k (some (f k))],
       some ce) := by
    rw [hfrs]
    by_cases hk0 : 0 < k
    · rw [retryGo_succ_normal cfg w iter fr k last' hk0 hen (by simp [hcd k (Nat.le_refl k)]),
        retryBody_ctxErr w k _ (f k) ce (hsb k (Nat.le_refl k)) (hir k (Nat.le_refl k)) hcak]
      simp [hk0]
    · have hk0' : k = 0 := by omega
      subst hk0'
      rw [retryGo_succ_zero,
        retryBody_ctxErr w 0 _ (f 0) ce (hsb 0 (Nat.le_refl 0)) (hir 0 (Nat.le_refl 0)) hcak]
      simp
  unfold runIterationWithRetry
  rw [heq, hframe]
  refine ⟨rfl, ?_, ?_⟩
  · rw [attemptsOf_append, hS]
    have h1 : attemptsOf ((if 0 < k ∧ 0 < delayFor cfg k then
        [RetryStep.waitFull k (delayFor cfg k)] else [])
        ++ [RetryStep.attemptRun k (some (f k))]) = [k] := by
      rw [attemptsOf_append]
      split <;> simp [attemptsOf]
    rw [h1, Nat.sub_zero, show k + 1 = k + 1 by rfl, List.range'_1_concat]
    simp
  · rw [retryCounts_append, hE]
    have h2 : retryCounts (if 0 < k then [retryEvent iter cfg k] else []) =
        if 0 < k then [k] else [] := by
      split <;> simp [retryCounts, retryEvent]
    rw [h2]
    by_cases hk0 : 0 < k
    · rw [if_pos hk0]
      calc List.range' 1 (k - 1) ++ [k]
          = List.range' 1 (k - 1) ++ [1 + (k - 1)] := by
            rw [show 1 + (k - 1) = k by omega]
        _ = List.range' 1 ((k - 1) + 1) := (List.range'_1_concat 1 (k - 1)).symm
        _ = List.range' 1 k := by rw [show (k - 1) + 1 = k by omega]
    · have hk0' : k = 0 := by omega
      subst hk0'
      simp

/-- An explicit stop observed right after failing attempt `k` is not
retried: the call returns nil, exactly attempts `0..k` ran, and only
Retrying events `1..k` were emitted. -/
theorem runIterationWithRetry_stop_at (cfg : RetryConfig) (w : RetryWorld) (iter : Nat)
    (f : Nat → String) (k : Nat)
    (hen : cfg.enabled = true) (hk : k ≤ cfg.maxRetries)
    (hsb : ∀ j, j ≤ k → w.stoppedBefore j = false)
    (hsa : ∀ j, j < k → w.stoppedAfter j = false)
    (hsak : w.stoppedAfter k = true)
    (hcd : ∀ j, j ≤ k → w.ctxDoneInWait j = false)
    (hca : ∀ j, j ≤ k → w.ctxErrAfter j = none)
    (hir : ∀ j, j ≤ k → w.iterResult j = some (f j)) :
    (runIterationWithRetry cfg w iter).2.2 = none ∧
    attemptsOf (runIterationWithRetry cfg w iter).2.1 = List.range' 0 (k + 1) ∧
    retryCounts (runIterationWithRetry cfg w iter).1 = List.range' 1 k := by
  obtain ⟨E, S, last', heq, hE, hS, _⟩ :=
    retryGo_prefix cfg w iter f k hen (fun j hj => hsb j (Nat.le_of_lt hj)) hsa
      (fun j hj => hcd j (Nat.le_of_lt hj)) (fun j hj => hca j (Nat.le_of_lt hj))
      (fun j hj => hir j (Nat.le_of_lt hj))
      (cfg.maxRetries + 1) 0 (Nat.zero_le k) (by omega) none
  obtain ⟨fr, hfrs⟩ : ∃ fr, cfg.maxRetries + 1 - (k - 0) = fr + 1 :=
    ⟨cfg.maxRetries - k, by omega⟩
  have hframe : retryGo cfg w iter (cfg.maxRetries + 1 - (k - 0)) k last' =
      ((if 0 < k then [retryEvent iter cfg k] else []),
       (if 0 < k ∧ 0 < delayFor cfg k then [RetryStep.waitFull k (delayFor cfg k)] else [])
         ++ [RetryStep.attemptRun k (some (f k)), RetryStep.stoppedReturn k],
       none) := by
    rw [hfrs]
    by_cases hk0 : 0 < k
    · rw [retryGo_succ_normal cfg w iter fr k last' hk0 hen
          (by simp [hcd k (Nat.le_refl k)]),
        retryBody_stopAfter w k _ (f k) (hsb k (Nat.le_refl k)) (hir k (Nat.le_refl k))
          (hca k (Nat.le_refl k)) hsak]
      simp [hk0]
    · have hk0' : k = 0 := by omega
      subst hk0'
      rw [retryGo_succ_zero,
        retryBody_stopAfter w 0 _ (f 0) (hsb 0 (Nat.le_refl 0)) (hir 0 (Nat.le_refl 0))
          (hca 0 (Nat.le_refl 0)) hsak]
      simp
  unfold runIterationWithRetry
  rw [heq, hframe]
  refine ⟨rfl, ?_, ?_⟩
  · rw [attemptsOf_append, hS]
    have h1 : attemptsOf ((if 0 < k ∧ 0 < delayFor cfg k then
        [RetryStep.waitFull k (delayFor cfg k)] else [])
        ++ [RetryStep.attemptRun k (some (f k)), RetryStep.stoppedReturn k]) = [k] := by
      rw [attemptsOf_append]
      split <;> simp [attemptsOf]
    rw [h1, Nat.sub_zero, List.range'_1_concat]
    simp
  · rw [retryCounts_append, hE]
    have h2 : retryCounts (if 0 < k then [retryEvent iter cfg k] else []) =
        if 0 < k then [k] else [] := by
      split <;> simp [retryCounts, retryEvent]
    rw [h2]
    by_cases hk0 : 0 < k
    · rw [if_pos hk0]
      calc List.range' (max 0 1) (k - max 0 1) ++ [k]
          = List.range' 1 (k - 1) ++ [1 + (k - 1)] := by
            rw [show 1 + (k - 1) = k by omega]
            rfl
        _ = List.range' 1 ((k - 1) + 1) := (List.range'_1_concat 1 (k - 1)).symm
        _ = List.range' 1 k := by rw [show (k - 1) + 1 = k by omega]
    · have hk0' : k = 0 := by omega
      subst hk0'
      simp

/-- **C5** — For each `runIterationWithRetry` call: (a) in any
environment the Retrying events are consecutive attempts `1..m` with
`m ≤ max_retries` (default 3), each carrying its attempt number and
`max_retries` (see `retryEvent`); (b) if the first attempt and all
`max_retries` retries fail (no stop / cancellation), the call returns
the `max retries exceeded` error wrapping the last attempt's error;
(c) an attempt whose failure coincides with context cancellation is not
retried — the context error is returned, no attempt beyond it runs, and
no further Retrying events appear; (d) likewise an attempt followed by
an observed stop is not retried and the call returns nil. -/
theorem retry_policy (cfg : RetryConfig) (iter : Nat)
    (w wB wC wD : RetryWorld) (fB fC fD : Nat → String)
    (kC kD : Nat) (ceC : String)
    (hen : cfg.enabled = true)
    (hB1 : ∀ j, wB.stoppedBefore j = false) (hB2 : ∀ j, wB.stoppedAfter j = false)
    (hB3 : ∀ j, wB.ctxDoneInWait j = false) (hB4 : ∀ j, wB.ctxErrAfter j = none)
    (hB5 : ∀ j, wB.iterResult j = some (fB j))
    (hkC : kC ≤ cfg.maxRetries)
    (hC1 : ∀ j, j ≤ kC → wC.stoppedBefore j = false)
    (hC2 : ∀ j, j < kC → wC.stoppedAfter j = false)
    (hC3 : ∀ j, j ≤ kC → wC.ctxDoneInWait j = false)
    (hC4 : ∀ j, j < kC → wC.ctxErrAfter j = none)
    (hC4k : wC.ctxErrAfter kC = some ceC)
    (hC5 : ∀ j, j ≤ kC → wC.iterResult j = some (fC j))
    (hkD : kD ≤ cfg.maxRetries)
    (hD1 : ∀ j, j ≤ kD → wD.stoppedBefore j = false)
    (hD2 : ∀ j, j < kD → wD.stoppedAfter j = false)
    (hD2k : wD.stoppedAfter kD = true)
    (hD3 : ∀ j, j ≤ kD → wD.ctxDoneInWait j = false)
    (hD4 : ∀ j, j ≤ kD → wD.ctxErrAfter j = none)
    (hD5 : ∀ j, j ≤ kD → wD.iterResult j = some (fD j)) :
    (∃ m, m ≤ cfg.maxRetries ∧
      (runIterationWithRetry cfg w iter).1 =
        (List.range' 1 m).map (retryEvent iter cfg)) ∧
    (runIterationWithRetry cfg wB iter).2.2 =
      some (maxRetriesMsg cfg.maxRetries (some (fB cfg.maxRetries))) ∧
    ((runIterationWithRetry cfg wC iter).2.2 = some ceC ∧
      attemptsOf (runIterationWithRetry cfg wC iter).2.1 = List.range' 0 (kC + 1) ∧
      retryCounts (runIterationWithRetry cfg wC iter).1 = List.range' 1 kC) ∧
    ((runIterationWithRetry cfg wD iter).2.2 = none ∧
      attemptsOf (runIterationWithRetry cfg wD iter).2.1 = List.range' 0 (kD + 1) ∧
      retryCounts (runIterationWithRetry cfg wD iter).1 = List.range' 1 kD) := by
  refine ⟨runIterationWithRetry_events_range cfg w iter, ?_, ?_, ?_⟩
  · unfold runIterationWithRetry
    have h := retryGo_all_fail cfg wB iter fB hen hB1 hB2 hB3 hB4 hB5 cfg.maxRetries 0 none
    simpa using h
  · exact runIterationWithRetry_ctx_at cfg wC iter fC kC ceC hen hkC hC1 hC2 hC3 hC4
      hC4k hC5
  · exact runIterationWithRetry_stop_at cfg wD iter fD kD hen hkD hD1 hD2 hD2k hD3
      hD4 hD5

/-- Witness for C5 with the default configuration: a world that always
fails, a ctx-cancel world at attempt 1, a stop world at attempt 1. -/
theorem retry_policy_witness :
    (∃ m, m ≤ DefaultRetryConfig.maxRetries ∧
      (runIterationWithRetry DefaultRetryConfig { iterResult := fun _ => some "boom" } 1).1 =
        (List.range' 1 m).map (retryEvent 1 DefaultRetryConfig)) ∧
    (runIterationWithRetry DefaultRetryConfig { iterResult := fun _ => some "boom" } 1).2.2 =
      some (maxRetriesMsg DefaultRetryConfig.maxRetries (some "boom")) ∧
    ((runIterationWithRetry DefaultRetryConfig
        { iterResult := fun _ => some "boom",
          ctxErrAfter := fun j => if j = 1 then some "context canceled" else none } 1).2.2 =
        some "context canceled" ∧
      attemptsOf (runIterationWithRetry DefaultRetryConfig
        { iterResult := fun _ => some "boom",
          ctxErrAfter := fun j => if j = 1 then some "context canceled" else none } 1).2.1 =
        List.range' 0 (1 + 1) ∧
      retryCounts (runIterationWithRetry DefaultRetryConfig
        { iterResult := fun _ => some "boom",
          ctxErrAfter := fun j => if j = 1 then some "context canceled" else none } 1).1 =
        List.range' 1 1) ∧
    ((runIterationWithRetry DefaultRetryConfig
        { iterResult := fun _ => some "boom",
          stoppedAfter := fun j => j = 1 } 1).2.2 = none ∧
      attemptsOf (runIterationWithRetry DefaultRetryConfig
        { iterResult := fun _ => some "boom",
          stoppedAfter := fun j => j = 1 } 1).2.1 = List.range' 0 (1 + 1) ∧
      retryCounts (runIterationWithRetry DefaultRetryConfig
        { iterResult := fun _ => some "boom",
          stoppedAfter := fun j => j = 1 } 1).1 = List.range' 1 1) :=
  retry_policy DefaultRetryConfig 1
    { iterResult := fun _ => some "boom" }
    { iterResult := fun _ => some "boom" }
    { iterResult := fun _ => some "boom",
      ctxErrAfter := fun j => if j = 1 then some "context canceled" else none }
    { iterResult := fun _ => some "boom", stoppedAfter := fun j => j = 1 }
    (fun _ => "boom") (fun _ => "boom") (fun _ => "boom") 1 1 "context canceled"
    rfl (fun _ => rfl) (fun _ => rfl) (fun _ => rfl) (fun _ => rfl) (fun _ => rfl)
    (by decide)
    (fun _ _ => rfl) (fun _ _ => rfl) (fun _ _ => rfl)
    (fun j hj => by simp [show j = 0 by omega])
    (by simp) (fun _ _ => rfl)
    (by decide)
    (fun _ _ => rfl) (fun j hj => by simp [show j = 0 by omega]) (by simp)
    (fun _ _ => rfl) (fun _ _ => rfl) (fun _ _ => rfl)

/-- **C6 (amended)** — `Stop` invoked while the loop waits out a retry
back-off delay does not abort the wait: `Stop` cancels only the
per-iteration context, whose cancel handle is registered solely while
`runIteration` is in flight, so during back-off the stopped flag is set
but the context stays uncancelled and the full delay elapses (the trace
records `waitFull`, never `waitAborted`).  After the delay the stopped
flag is observed: the call returns nil, no further retry attempt runs,
no further Retrying event is emitted, and the loop is stopped. -/
theorem stop_during_backoff (cfg : RetryConfig) (w : RetryWorld) (iter : Nat)
    (f : Nat → String) (k : Nat) (s : LoopFlags)
    (hen : cfg.enabled = true) (hk1 : 1 ≤ k) (hk : k ≤ cfg.maxRetries)
    (hreg : s.cancelRegistered = false) (hctx : s.iterCtxCancelled = false)
    (hsb : ∀ j, j < k → w.stoppedBefore j = false)
    (hsbk : w.stoppedBefore k = true)
    (hsa : ∀ j, j < k → w.stoppedAfter j = false)
    (hcd : ∀ j, j ≤ k → w.ctxDoneInWait j = false)
    (hca : ∀ j, j < k → w.ctxErrAfter j = none)
    (hir : ∀ j, j < k → w.iterResult j = some (f j))
    (hd : 0 < delayFor cfg k) :
    (IsStopped (LoopStop s) = true ∧ (LoopStop s).iterCtxCancelled = false) ∧
    (runIterationWithRetry cfg w iter).2.2 = none ∧
    RetryStep.waitFull k (delayFor cfg k) ∈ (runIterationWithRetry cfg w iter).2.1 ∧
    (∀ j, RetryStep.waitAborted j ∉ (runIterationWithRetry cfg w iter).2.1) ∧
    attemptsOf (runIterationWithRetry cfg w iter).2.1 = List.range' 0 k ∧
    retryCounts (runIterationWithRetry cfg w iter).1 = List.range' 1 k := by
  obtain ⟨E, S, last', heq, hE, hS, hW⟩ :=
    retryGo_prefix cfg w iter f k hen hsb hsa
      (fun j hj => hcd j (Nat.le_of_lt hj)) hca hir
      (cfg.maxRetries + 1) 0 (Nat.zero_le k) (by omega) none
  obtain ⟨fr, hfrs⟩ : ∃ fr, cfg.maxRetries + 1 - (k - 0) = fr + 1 :=
    ⟨cfg.maxRetries - k, by omega⟩
  have hframe : retryGo cfg w iter (cfg.maxRetries + 1 - (k - 0)) k last' =
      ([retryEvent iter cfg k],
       [RetryStep.waitFull k (delayFor cfg k), RetryStep.stoppedReturn k],
       none) := by
    rw [hfrs]
    rw [retryGo_succ_normal cfg w iter fr k last' (by omega) hen
        (by simp [hcd k (Nat.le_refl k)]),
      retryBody_stopped w k _ hsbk]
    simp [hd]
  refine ⟨⟨by simp [IsStopped, LoopStop], by simp [LoopStop, hreg, hctx]⟩, ?_, ?_, ?_, ?_, ?_⟩
  · unfold runIterationWithRetry
    rw [heq, hframe]
  · unfold runIterationWithRetry
    rw [heq, hframe]
    exact List.mem_append.mpr (Or.inr (List.mem_cons_self _ _))
  · intro j
    unfold runIterationWithRetry
    rw [heq, hframe]
    intro hj
    rcases List.mem_append.mp hj with hj | hj
    · exact hW j hj
    · rcases List.mem_cons.mp hj with hj | hj
      · exact RetryStep.noConfusion hj
      · rcases List.mem_cons.mp hj with hj | hj
        · exact RetryStep.noConfusion hj
        · exact List.not_mem_nil _ hj
  · unfold runIterationWithRetry
    rw [heq, hframe]
    rw [attemptsOf_append, hS]
    simp [attemptsOf]
  · unfold runIterationWithRetry
    rw [heq, hframe]
    rw [retryCounts_append, hE]
    have h2 : retryCounts [retryEvent iter cfg k] = [k] := by
      simp [retryCounts, retryEvent]
    rw [h2]
    calc List.range' (max 0 1) (k - max 0 1) ++ [k]
        = List.range' 1 (k - 1) ++ [1 + (k - 1)] := by
          rw [show 1 + (k - 1) = k by omega]
          rfl
      _ = List.range' 1 ((k - 1) + 1) := (List.range'_1_concat 1 (k - 1)).symm
      _ = List.range' 1 k := by rw [show (k - 1) + 1 = k by omega]

/-- **C6 (counterexample)** — the claim "the wait is aborted immediately"
is false on the code: with the default config, attempts 0 and 1 fail and
stop arrives during the 5-second back-off before attempt 2.  `Stop` sets
the stopped flag but cannot cancel the wait (no per-iteration cancel
handle is registered during back-off), and the concrete trace records
the full wait `waitFull 2 5`, not `waitAborted 2`. -/
theorem stop_during_backoff_counterexample :
    (LoopStop { stopped := false, cancelRegistered := false, iterCtxCancelled := false } =
      { stopped := true, cancelRegistered := false, iterCtxCancelled := false }) ∧
    RetryStep.waitFull 2 5 ∈
      (runIterationWithRetry DefaultRetryConfig
        { iterResult := fun _ => some "boom", stoppedBefore := fun j => j = 2 } 1).2.1 ∧
    RetryStep.waitAborted 2 ∉
      (runIterationWithRetry DefaultRetryConfig
        { iterResult := fun _ => some "boom", stoppedBefore := fun j => j = 2 } 1).2.1 := by
  exact ⟨by decide, by decide, by decide⟩

/-- Witness for the amended C6 at the same concrete scenario. -/
theorem stop_during_backoff_witness :
    (IsStopped (LoopStop {}) = true ∧ (LoopStop {}).iterCtxCancelled = false) ∧
    (runIterationWithRetry DefaultRetryConfig
      { iterResult := fun _ => some "boom", stoppedBefore := fun j => j = 2 } 1).2.2 = none ∧
    RetryStep.waitFull 2 (delayFor DefaultRetryConfig 2) ∈
      (runIterationWithRetry DefaultRetryConfig
        { iterResult := fun _ => some "boom", stoppedBefore := fun j => j = 2 } 1).2.1 ∧
    (∀ j, RetryStep.waitAborted j ∉
      (runIterationWithRetry DefaultRetryConfig
        { iterResult := fun _ => some "boom", stoppedBefore := fun j => j = 2 } 1).2.1) ∧
    attemptsOf (runIterationWithRetry DefaultRetryConfig
      { iterResult := fun _ => some "boom", stoppedBefore := fun j => j = 2 } 1).2.1 =
      List.range' 0 2 ∧
    retryCounts (runIterationWithRetry DefaultRetryConfig
      { iterResult := fun _ => some "boom", stoppedBefore := fun j => j = 2 } 1).1 =
      List.range' 1 2 :=
  stop_during_backoff DefaultRetryConfig
    { iterResult := fun _ => some "boom", stoppedBefore := fun j => j = 2 } 1
    (fun _ => "boom") 2 {} rfl (by decide) (by decide) rfl rfl
    (fun j hj => by simp; omega) (by decide)
    (fun _ _ => rfl) (fun _ _ => rfl) (fun _ _ => rfl) (fun _ _ => rfl) (by decide)

end Chief
